import Mathlib

/-!
Shallow embedding of the variant binary decoder `VariantUtils`
(`src/python/pyspark/sql/variant_utils.py`) and verification of its
specification claims.

Conventions of the embedding:
* Byte buffers (`bytes`) are modelled as `List Nat` (each entry a byte value).
* Python exceptions are modelled by the error type `PyErr`: the decoder's own
  `Exception("Malformed Variant")` is `.malformed`, its
  `Exception("Unexpected Variant type: ...")` is `.unexpectedType`, and the
  interpreter-level exceptions that can escape from the decoder are
  `.structError` (from `struct.unpack`), `.indexError` (from direct `buf[i]`
  indexing) and `.unicodeError` (from `bytes.decode("utf-8")`).
* Bit operations on header bytes are written with `/` and `%`:
  `b & 0x3 = b % 4`, `(b >> 2) & 0x3F = b / 4 % 64`, `(b >> 6) & 0x3 = b / 64 % 4`,
  `(t >> 4) & 0x1 = t / 16 % 2`, `(t >> 2) & 0x3 = t / 4 % 4`, `t & 0x3 = t % 4`.
* The recursive materializers `_to_json` / `_to_python` use native (unbounded)
  recursion in Python; here they take an explicit fuel argument.  Child
  positions strictly increase, so fuel `len(value) + 1` always suffices (this
  is proved below); the public entry points use that fuel.
-/

set_option maxRecDepth 8000

/-- Python exceptions observable from the decoder. `fuelExhausted` is an
artifact of the fuelled embedding of the native recursion; it is proved
unreachable for sufficient fuel. -/
inductive PyErr where
  | malformed
  | unexpectedType
  | structError
  | indexError
  | unicodeError
  | fuelExhausted
  deriving DecidableEq

/-- A byte buffer: list of byte values. -/
abbrev Bytes := List Nat

deriving instance DecidableEq for Except

/-! Constants from the `VariantUtils` class. -/

def BASIC_TYPE_MASK : Nat := 3
def TYPE_INFO_MASK : Nat := 63
def MAX_SHORT_STR_SIZE : Nat := 63
def PRIMITIVE : Nat := 0
def SHORT_STR : Nat := 1
def OBJECT : Nat := 2
def ARRAY : Nat := 3
def NULL : Nat := 0
def TRUE : Nat := 1
def FALSE : Nat := 2
def INT1 : Nat := 3
def INT2 : Nat := 4
def INT4 : Nat := 5
def INT8 : Nat := 6
def DOUBLE : Nat := 7
def DECIMAL4 : Nat := 8
def DECIMAL8 : Nat := 9
def DECIMAL16 : Nat := 10
def LONG_STR : Nat := 16
def U32_SIZE : Nat := 4

/-- `_check_index(pos, length)`: raise `Malformed Variant` unless
`0 <= pos < length`.  Positions are naturals here, so the `pos < 0` test of the
source is vacuous (every position expression passed to `_check_index` by the
source is nonnegative; the `- 1` occurrences all apply to values `>= 1`,
so natural subtraction agrees with Python's arithmetic). -/
def checkIndex (pos len : Nat) : Except PyErr Unit :=
  if pos ≥ len then .error .malformed else .ok ()

/-- Direct Python indexing `data[pos]` (raises `IndexError` out of range). -/
def byteAt (data : Bytes) (pos : Nat) : Except PyErr Nat :=
  match data[pos]? with
  | some b => .ok b
  | none => .error .indexError

/-- Python slice `data[start : start + len]` (truncating, never raising). -/
def sliceBytes (data : Bytes) (start len : Nat) : Bytes :=
  (data.drop start).take len

/-- Value of a little-endian byte list. -/
def leNat : Bytes → Nat
  | [] => 0
  | b :: l => b + 256 * leNat l

/-- `int.from_bytes(bs, byteorder="little", signed=signed)`. -/
def intFromBytesLE (bs : Bytes) (signed : Bool) : Int :=
  let u := leNat bs
  if signed ∧ 2 * u ≥ 256 ^ bs.length then (u : Int) - ((256 ^ bs.length : Nat) : Int)
  else (u : Int)

/-- `_read_long(data, pos, num_bytes, signed)`: bounds-checked little-endian
integer read. -/
def readLong (data : Bytes) (pos numBytes : Nat) (signed : Bool) : Except PyErr Int :=
  match checkIndex pos data.length with
  | .error e => .error e
  | .ok _ =>
  match checkIndex (pos + numBytes - 1) data.length with
  | .error e => .error e
  | .ok _ => .ok (intFromBytesLE (sliceBytes data pos numBytes) signed)

/-- `_read_long` with `signed=False`; the result is nonnegative, returned as a
natural number. -/
def readU (data : Bytes) (pos numBytes : Nat) : Except PyErr Nat :=
  match readLong data pos numBytes false with
  | .error e => .error e
  | .ok i => .ok i.toNat

/-- `_get_type_info(value, pos)`: split the header byte into
`(basic_type, type_info)`.  The source indexes `value[pos]` directly. -/
def getTypeInfo (value : Bytes) (pos : Nat) : Except PyErr (Nat × Nat) :=
  match byteAt value pos with
  | .error e => .error e
  | .ok b => .ok (b % 4, b / 4 % 64)

/-- Strict UTF-8 decoding (Python `bytes.decode("utf-8")`), as a byte-fed
state machine.  `none` is the idle state; `some (rem, lo, hi, acc)` expects
`rem` more continuation bytes, the next of which must lie in `[lo, hi]`,
with accumulated code-point bits `acc`.  Rejects overlong forms, surrogates
and values above U+10FFFF, exactly as CPython does.  Returns the decoded
code points. -/
def utf8DecodeAux : Option (Nat × Nat × Nat × Nat) → List Nat → Option (List Nat)
  | none, [] => some []
  | some _, [] => none
  | none, b :: l =>
    if b < 128 then
      match utf8DecodeAux none l with
      | none => none
      | some cs => some (b :: cs)
    else if b < 194 then none
    else if b ≤ 223 then utf8DecodeAux (some (1, 128, 191, b - 192)) l
    else if b = 224 then utf8DecodeAux (some (2, 160, 191, 0)) l
    else if b ≤ 236 then utf8DecodeAux (some (2, 128, 191, b - 224)) l
    else if b = 237 then utf8DecodeAux (some (2, 128, 159, 13)) l
    else if b ≤ 239 then utf8DecodeAux (some (2, 128, 191, b - 224)) l
    else if b = 240 then utf8DecodeAux (some (3, 144, 191, 0)) l
    else if b ≤ 243 then utf8DecodeAux (some (3, 128, 191, b - 240)) l
    else if b = 244 then utf8DecodeAux (some (3, 128, 143, 4)) l
    else none
  | some (rem, lo, hi, acc), b :: l =>
    if lo ≤ b ∧ b ≤ hi then
      let acc1 := acc * 64 + (b - 128)
      if rem ≤ 1 then
        match utf8DecodeAux none l with
        | none => none
        | some cs => some (acc1 :: cs)
      else utf8DecodeAux (some (rem - 1, 128, 191, acc1)) l
    else none

/-- `bytes.decode("utf-8")`: `some` code points, or `none` on
`UnicodeDecodeError`. -/
def utf8Decode (bs : List Nat) : Option (List Nat) :=
  utf8DecodeAux none bs

/-- `_get_metadata_key(metadata, id)`: resolve a field id to its key string
(as a list of code points) through the metadata dictionary. -/
def getMetadataKey (metadata : Bytes) (id : Nat) : Except PyErr (List Nat) :=
  match checkIndex 0 metadata.length with
  | .error e => .error e
  | .ok _ =>
  match byteAt metadata 0 with
  | .error e => .error e
  | .ok b0 =>
  let offsetSize := b0 / 64 % 4 + 1
  match readU metadata 1 offsetSize with
  | .error e => .error e
  | .ok dictSize =>
  if id ≥ dictSize then .error .malformed else
  let stringStart := 1 + (dictSize + 2) * offsetSize
  match readU metadata (1 + (id + 1) * offsetSize) offsetSize with
  | .error e => .error e
  | .ok offset =>
  match readU metadata (1 + (id + 2) * offsetSize) offsetSize with
  | .error e => .error e
  | .ok nextOffset =>
  if offset > nextOffset then .error .malformed else
  match checkIndex (stringStart + nextOffset - 1) metadata.length with
  | .error e => .error e
  | .ok _ =>
  match utf8Decode (sliceBytes metadata (stringStart + offset) (nextOffset - offset)) with
  | none => .error .unicodeError
  | some cps => .ok cps

example : getMetadataKey [1, 1, 0, 1, 97] 0 = .ok [97] := rfl
example : getMetadataKey [1, 1, 0, 1, 97] 1 = .error .malformed := rfl
example : getMetadataKey [1, 1, 0, 1, 255] 0 = .error .unicodeError := rfl
example : getMetadataKey [1, 2, 0, 1, 2, 97, 98] 1 = .ok [98] := rfl

/-! Decimal digits and Python `decimal.Decimal` arithmetic/rendering. -/

/-- Little-endian decimal digits of `n` (empty for `0`); fuelled structural
recursion, `decDigits` instantiates the fuel with `n` itself, which always
suffices. -/
def decDigitsAux : Nat → Nat → List Nat
  | 0, _ => []
  | fuel + 1, n => if n = 0 then [] else n % 10 :: decDigitsAux fuel (n / 10)

/-- Little-endian decimal digits of `n` (empty for `0`). -/
def decDigits (n : Nat) : List Nat := decDigitsAux n n

/-- Decimal digit to character, as in Python's `str` of an integer. -/
def digitChar (d : Nat) : Char :=
  match d with
  | 0 => '0' | 1 => '1' | 2 => '2' | 3 => '3' | 4 => '4'
  | 5 => '5' | 6 => '6' | 7 => '7' | 8 => '8' | 9 => '9'
  | _ => '*'

/-- The digit string of a coefficient, most significant digit first
(Python renders the coefficient of a `Decimal`, or any nonnegative integer,
this way; `0` renders as `"0"`). -/
def coeffChars (c : Nat) : List Char :=
  if c = 0 then ['0'] else ((decDigits c).reverse).map digitChar

/-- Python `str` of an `int`. -/
def intRepr (i : Int) : List Char :=
  if i < 0 then '-' :: coeffChars i.natAbs else coeffChars i.natAbs

/-- A Python `decimal.Decimal` value: sign, coefficient, exponent. -/
structure PyDec where
  sign : Bool
  coeff : Nat
  exp : Int
  deriving DecidableEq

/-- `decimal.Decimal(unscaled) * (decimal.Decimal(10) ** (-scale))` under
Python's default decimal context (precision 28, ROUND_HALF_EVEN).
`Decimal(10) ** (-scale)` is exactly `1E-scale`; the multiplication keeps the
exact coefficient `|unscaled|` when it has at most 28 digits and otherwise
rounds it half-even to 28 significant digits, bumping the exponent. -/
def pyDecMul (u : Int) (s : Nat) : PyDec :=
  let a := u.natAbs
  let d := (decDigits a).length
  if d ≤ 28 then ⟨decide (u < 0), a, -(s : Int)⟩
  else
    let k := d - 28
    let q := a / 10 ^ k
    let r := a % 10 ^ k
    let half := 5 * 10 ^ (k - 1)
    let q1 := if r > half then q + 1 else if r < half then q
              else if q % 2 = 0 then q else q + 1
    if (decDigits q1).length > 28 then ⟨decide (u < 0), q1 / 10, (k : Int) + 1 - s⟩
    else ⟨decide (u < 0), q1, (k : Int) - s⟩

/-- `'E%+d' % e`: exponent rendering with a forced sign, as in Python's
`Decimal.__str__`. -/
def expChars (e : Int) : List Char :=
  if e < 0 then '-' :: coeffChars e.natAbs else '+' :: coeffChars e.natAbs

/-- Python `str` of a `decimal.Decimal` (the to-scientific-string algorithm of
`Decimal.__str__`): plain positional notation when `exp <= 0` and the adjusted
exponent is at least `-6`, scientific notation otherwise. -/
def decStr (d : PyDec) : List Char :=
  let ds := coeffChars d.coeff
  let dslen : Int := (ds.length : Int)
  let leftdigits : Int := d.exp + dslen
  let dotplace : Int := if d.exp ≤ 0 ∧ leftdigits > -6 then leftdigits else 1
  let intpart : List Char :=
    if dotplace ≤ 0 then ['0']
    else if dotplace ≥ dslen then ds ++ List.replicate (dotplace - dslen).toNat '0'
    else ds.take dotplace.toNat
  let fracpart : List Char :=
    if dotplace ≤ 0 then '.' :: (List.replicate (-dotplace).toNat '0' ++ ds)
    else if dotplace ≥ dslen then []
    else '.' :: ds.drop dotplace.toNat
  let exppart : List Char :=
    if leftdigits = dotplace then [] else 'E' :: expChars (leftdigits - dotplace)
  (if d.sign then ['-'] else []) ++ intpart ++ fracpart ++ exppart

example : decStr (pyDecMul 100 2) = ('1' :: '.' :: '0' :: '0' :: []) := rfl
example : decStr (pyDecMul 1 7) = ('1' :: 'E' :: '-' :: '7' :: []) := rfl
example : decStr (pyDecMul 0 2) = ('0' :: '.' :: '0' :: '0' :: []) := rfl
example : decStr (pyDecMul (-5) 1) = ('-' :: '0' :: '.' :: '5' :: []) := rfl
example : decStr (pyDecMul 123 0) = ('1' :: '2' :: '3' :: []) := rfl

/-! JSON string escaping (`json.dumps` with the default `ensure_ascii=True`). -/

/-- Hexadecimal digit character (lowercase), as used by `json.dumps`'s
`\uXXXX` escapes. -/
def hexChar (n : Nat) : Char :=
  match n with
  | 0 => '0' | 1 => '1' | 2 => '2' | 3 => '3' | 4 => '4'
  | 5 => '5' | 6 => '6' | 7 => '7' | 8 => '8' | 9 => '9'
  | 10 => 'a' | 11 => 'b' | 12 => 'c' | 13 => 'd' | 14 => 'e' | 15 => 'f'
  | _ => '*'

/-- A `\uXXXX` escape for a code unit below `0x10000`. -/
def uEscape (cp : Nat) : List Char :=
  '\\' :: 'u' :: hexChar (cp / 4096 % 16) :: hexChar (cp / 256 % 16)
    :: hexChar (cp / 16 % 16) :: hexChar (cp % 16) :: []

/-- Escaping of one code point by `json.dumps` (default `ensure_ascii=True`):
printable ASCII except quote and backslash is literal, the short escapes
cover the usual control characters, everything else becomes `\uXXXX`
(a surrogate pair above U+FFFF). -/
def jsonEscapeChar (cp : Nat) : List Char :=
  if cp = 34 then '\\' :: '"' :: []
  else if cp = 92 then '\\' :: '\\' :: []
  else if 32 ≤ cp ∧ cp ≤ 126 then [Char.ofNat cp]
  else if cp = 8 then '\\' :: 'b' :: []
  else if cp = 9 then '\\' :: 't' :: []
  else if cp = 10 then '\\' :: 'n' :: []
  else if cp = 12 then '\\' :: 'f' :: []
  else if cp = 13 then '\\' :: 'r' :: []
  else if cp < 65536 then uEscape cp
  else uEscape (55296 + (cp - 65536) / 1024) ++ uEscape (56320 + (cp - 65536) % 1024)

/-- `json.dumps(s)` for a string of code points. -/
def jsonDumps (cps : List Nat) : List Char :=
  '"' :: (cps.map jsonEscapeChar).flatten ++ ['"']

example : jsonDumps [97, 98] = ('"' :: 'a' :: 'b' :: '"' :: []) := rfl

/-- Modelled abstractly: text rendering of a Python `float` (`str(value)` on
the result of `struct.unpack("d", ...)`) is IEEE-754 floating-point behaviour
outside this shallow embedding; the value itself is kept as the raw 8-byte
little-endian bit pattern and rendered from it.  No claim below observes this
text. -/
def floatRepr (bits : Nat) : List Char :=
  'f' :: 'l' :: 'o' :: 'a' :: 't' :: ':' :: coeffChars bits

/-! Logical value kinds and scalar accessors. -/

/-- The Python marker types returned by `_get_type`: `type(None)`, `bool`,
`int`, `str`, `float`, `decimal.Decimal`, `dict`, `array`. -/
inductive PyType where
  | noneT
  | bool
  | int
  | str
  | float
  | dec
  | dict
  | arr
  deriving DecidableEq

/-- `_get_type(value, pos)`: resolve the logical kind at a position. -/
def getType (value : Bytes) (pos : Nat) : Except PyErr PyType :=
  match checkIndex pos value.length with
  | .error e => .error e
  | .ok _ =>
  match getTypeInfo value pos with
  | .error e => .error e
  | .ok (bt, ti) =>
  if bt = SHORT_STR then .ok .str
  else if bt = OBJECT then .ok .dict
  else if bt = ARRAY then .ok .arr
  else if ti = NULL then .ok .noneT
  else if ti = TRUE ∨ ti = FALSE then .ok .bool
  else if ti = INT1 ∨ ti = INT2 ∨ ti = INT4 ∨ ti = INT8 then .ok .int
  else if ti = DOUBLE then .ok .float
  else if ti = DECIMAL4 ∨ ti = DECIMAL8 ∨ ti = DECIMAL16 then .ok .dec
  else if ti = LONG_STR then .ok .str
  else .error .malformed

/-- `_get_boolean(value, pos)`. -/
def getBoolean (value : Bytes) (pos : Nat) : Except PyErr Bool :=
  match checkIndex pos value.length with
  | .error e => .error e
  | .ok _ =>
  match getTypeInfo value pos with
  | .error e => .error e
  | .ok (bt, ti) =>
  if bt ≠ PRIMITIVE ∨ (ti ≠ TRUE ∧ ti ≠ FALSE) then .error .unexpectedType
  else .ok (decide (ti = TRUE))

/-- `_get_long(value, pos)`. -/
def getLong (value : Bytes) (pos : Nat) : Except PyErr Int :=
  match checkIndex pos value.length with
  | .error e => .error e
  | .ok _ =>
  match getTypeInfo value pos with
  | .error e => .error e
  | .ok (bt, ti) =>
  if bt ≠ PRIMITIVE then .error .unexpectedType
  else if ti = INT1 then readLong value (pos + 1) 1 true
  else if ti = INT2 then readLong value (pos + 1) 2 true
  else if ti = INT4 then readLong value (pos + 1) 4 true
  else if ti = INT8 then readLong value (pos + 1) 8 true
  else .error .unexpectedType

/-- Shared tail of `_get_string`: bounds check `start + length - 1`, then
UTF-8 decode the slice `value[start : start + length]`. -/
def stringSlice (value : Bytes) (start len : Nat) : Except PyErr (List Nat) :=
  match checkIndex (start + len - 1) value.length with
  | .error e => .error e
  | .ok _ =>
  match utf8Decode (sliceBytes value start len) with
  | none => .error .unicodeError
  | some cps => .ok cps

/-- `_get_string(value, pos)` (short and long strings; the source computes
`start`/`length` in one branch guarded by the disjunction of the two cases,
split here into the two cases). -/
def getString (value : Bytes) (pos : Nat) : Except PyErr (List Nat) :=
  match checkIndex pos value.length with
  | .error e => .error e
  | .ok _ =>
  match getTypeInfo value pos with
  | .error e => .error e
  | .ok (bt, ti) =>
  if bt = SHORT_STR then stringSlice value (pos + 1) ti
  else if bt = PRIMITIVE ∧ ti = LONG_STR then
    match readU value (pos + 1) U32_SIZE with
    | .error e => .error e
    | .ok len => stringSlice value (pos + 1 + U32_SIZE) len
  else .error .unexpectedType

/-- `_get_double(value, pos)`: the payload slice `value[pos+1 : pos+9]` is
taken without a bounds check (Python slices truncate); `struct.unpack("d", b)`
then demands exactly 8 bytes, raising `struct.error` otherwise.  The float is
kept as its raw little-endian bit pattern. -/
def getDouble (value : Bytes) (pos : Nat) : Except PyErr Nat :=
  match checkIndex pos value.length with
  | .error e => .error e
  | .ok _ =>
  match getTypeInfo value pos with
  | .error e => .error e
  | .ok (bt, ti) =>
  if bt ≠ PRIMITIVE ∨ ti ≠ DOUBLE then .error .unexpectedType
  else
    let bs := sliceBytes value (pos + 1) 8
    if bs.length ≠ 8 then .error .structError else .ok (leNat bs)

/-- The reads of `_get_decimal(value, pos)`: the scale byte `value[pos + 1]`
(direct indexing, may raise `IndexError`) and the signed little-endian
unscaled integer.  Returns `(scale, unscaled)`. -/
def getDecimalSU (value : Bytes) (pos : Nat) : Except PyErr (Nat × Int) :=
  match checkIndex pos value.length with
  | .error e => .error e
  | .ok _ =>
  match getTypeInfo value pos with
  | .error e => .error e
  | .ok (bt, ti) =>
  if bt ≠ PRIMITIVE then .error .unexpectedType
  else
  match byteAt value (pos + 1) with
  | .error e => .error e
  | .ok scale =>
  if ti = DECIMAL4 then
    match readLong value (pos + 2) 4 true with
    | .error e => .error e
    | .ok u => .ok (scale, u)
  else if ti = DECIMAL8 then
    match readLong value (pos + 2) 8 true with
    | .error e => .error e
    | .ok u => .ok (scale, u)
  else if ti = DECIMAL16 then
    match checkIndex (pos + 17) value.length with
    | .error e => .error e
    | .ok _ => .ok (scale, intFromBytesLE (sliceBytes value (pos + 2) 16) true)
  else .error .unexpectedType

/-- `_get_decimal(value, pos)`:
`decimal.Decimal(unscaled) * (decimal.Decimal(10) ** (-scale))`. -/
def getDecimal (value : Bytes) (pos : Nat) : Except PyErr PyDec :=
  match getDecimalSU value pos with
  | .error e => .error e
  | .ok su => .ok (pyDecMul su.2 su.1)

/-- A native Python value as produced by `_to_python` / `_get_scalar`.
Strings and dictionary keys are lists of code points; floats carry their raw
bit pattern; dictionaries are insertion-ordered key/value lists. -/
inductive PyValue where
  | pyNone
  | pyBool (b : Bool)
  | pyInt (i : Int)
  | pyFloat (bits : Nat)
  | pyDecimal (d : PyDec)
  | pyStr (cps : List Nat)
  | pyDict (entries : List (List Nat × PyValue))
  | pyList (xs : List PyValue)

/-- `_get_scalar(variant_type, value, metadata, pos)` (the `metadata`
parameter is accepted and unused, as in the source). -/
def getScalar (t : PyType) (value _metadata : Bytes) (pos : Nat) : Except PyErr PyValue :=
  match t with
  | .noneT => .ok .pyNone
  | .bool =>
    match getBoolean value pos with
    | .error e => .error e
    | .ok b => .ok (.pyBool b)
  | .int =>
    match getLong value pos with
    | .error e => .error e
    | .ok i => .ok (.pyInt i)
  | .str =>
    match getString value pos with
    | .error e => .error e
    | .ok cps => .ok (.pyStr cps)
  | .float =>
    match getDouble value pos with
    | .error e => .error e
    | .ok bits => .ok (.pyFloat bits)
  | .dec =>
    match getDecimal value pos with
    | .error e => .error e
    | .ok d => .ok (.pyDecimal d)
  | _ => .error .malformed

/-! Container decoders. -/

/-- Exception-propagating map over a list, in order: the Python
`for`-loop-with-`append` (or list comprehension) whose body may raise. -/
def exMap (f : α → Except PyErr β) : List α → Except PyErr (List β)
  | [] => .ok []
  | a :: l =>
    match f a with
    | .error e => .error e
    | .ok b =>
      match exMap f l with
      | .error e => .error e
      | .ok bs => .ok (b :: bs)

/-- `size_bytes` of an object header: `U32_SIZE` if `(type_info >> 4) & 1`
else 1. -/
def objSizeBytes (ti : Nat) : Nat := if ti / 16 % 2 ≠ 0 then U32_SIZE else 1

/-- `id_size` of an object header: `((type_info >> 2) & 0x3) + 1`. -/
def objIdSize (ti : Nat) : Nat := ti / 4 % 4 + 1

/-- `offset_size` of an object header: `(type_info & 0x3) + 1`. -/
def objOffsetSize (ti : Nat) : Nat := ti % 4 + 1

/-- `id_start = pos + 1 + size_bytes`. -/
def objIdStart (pos ti : Nat) : Nat := pos + 1 + objSizeBytes ti

/-- `offset_start = id_start + num_fields * id_size`. -/
def objOffsetStart (pos ti n : Nat) : Nat := objIdStart pos ti + n * objIdSize ti

/-- `data_start = offset_start + (num_fields + 1) * offset_size`. -/
def objDataStart (pos ti n : Nat) : Nat :=
  objOffsetStart pos ti n + (n + 1) * objOffsetSize ti

/-- `_handle_object(value, metadata, pos, func)`: parse the object header and
tables and produce the ordered `(key, child position)` list that the source
passes to `func` (the callback is applied by the caller here). -/
def handleObject (value metadata : Bytes) (pos : Nat) :
    Except PyErr (List (List Nat × Nat)) :=
  match checkIndex pos value.length with
  | .error e => .error e
  | .ok _ =>
  match getTypeInfo value pos with
  | .error e => .error e
  | .ok (bt, ti) =>
  if bt ≠ OBJECT then .error .malformed else
  match readU value (pos + 1) (objSizeBytes ti) with
  | .error e => .error e
  | .ok numFields =>
    exMap (fun i =>
      match readU value (objIdStart pos ti + objIdSize ti * i) (objIdSize ti) with
      | .error e => .error e
      | .ok id =>
      match readU value (objOffsetStart pos ti numFields + objOffsetSize ti * i)
          (objOffsetSize ti) with
      | .error e => .error e
      | .ok off =>
      match getMetadataKey metadata id with
      | .error e => .error e
      | .ok key => .ok (key, objDataStart pos ti numFields + off))
      (List.range numFields)

/-- `size_bytes` of an array header: `U32_SIZE` if `(type_info >> 2) & 1`
else 1. -/
def arrSizeBytes (ti : Nat) : Nat := if ti / 4 % 2 ≠ 0 then U32_SIZE else 1

/-- `offset_size` of an array header: `(type_info & 0x3) + 1`. -/
def arrOffsetSize (ti : Nat) : Nat := ti % 4 + 1

/-- `offset_start = pos + 1 + size_bytes`. -/
def arrOffsetStart (pos ti : Nat) : Nat := pos + 1 + arrSizeBytes ti

/-- `data_start = offset_start + (num_fields + 1) * offset_size`. -/
def arrDataStart (pos ti n : Nat) : Nat :=
  arrOffsetStart pos ti + (n + 1) * arrOffsetSize ti

/-- `_handle_array(value, pos, func)`: parse the array header and offset
table, producing the ordered element-position list. -/
def handleArray (value : Bytes) (pos : Nat) : Except PyErr (List Nat) :=
  match checkIndex pos value.length with
  | .error e => .error e
  | .ok _ =>
  match getTypeInfo value pos with
  | .error e => .error e
  | .ok (bt, ti) =>
  if bt ≠ ARRAY then .error .malformed else
  match readU value (pos + 1) (arrSizeBytes ti) with
  | .error e => .error e
  | .ok numFields =>
    exMap (fun i =>
      match readU value (arrOffsetStart pos ti + arrOffsetSize ti * i)
          (arrOffsetSize ti) with
      | .error e => .error e
      | .ok off => .ok (arrDataStart pos ti numFields + off))
      (List.range numFields)

/-! Recursive materializers. -/

/-- The opening brace character (written via its code point to keep braces out
of string literals). -/
def lbrace : Char := Char.ofNat 123

/-- The closing brace character. -/
def rbrace : Char := Char.ofNat 125

/-- Rendering of a scalar by `_to_json`: `None` renders as `null`, `bool` as
`true`/`false`, `str` via `json.dumps`, everything else via Python `str`.
The `pyDict`/`pyList` cases are unreachable from the materializer (it
dispatches containers before calling `_get_scalar`). -/
def scalarJson (sc : PyValue) : List Char :=
  match sc with
  | .pyNone => 'n' :: 'u' :: 'l' :: 'l' :: []
  | .pyBool b => if b then 't' :: 'r' :: 'u' :: 'e' :: [] else 'f' :: 'a' :: 'l' :: 's' :: 'e' :: []
  | .pyStr cps => jsonDumps cps
  | .pyInt i => intRepr i
  | .pyFloat bits => floatRepr bits
  | .pyDecimal d => decStr d
  | .pyDict _ => []
  | .pyList _ => []

/-- `_to_json(value, metadata, pos)`, with explicit recursion fuel. -/
def toJsonF (value metadata : Bytes) : Nat → Nat → Except PyErr (List Char)
  | 0, _ => .error .fuelExhausted
  | fuel + 1, pos =>
    match getType value pos with
    | .error e => .error e
    | .ok .dict =>
      match handleObject value metadata pos with
      | .error e => .error e
      | .ok ps =>
        match exMap (fun kp =>
            match toJsonF value metadata fuel kp.2 with
            | .error e => .error e
            | .ok s => .ok (jsonDumps kp.1 ++ ':' :: s)) ps with
        | .error e => .error e
        | .ok parts => .ok (lbrace :: List.intercalate [','] parts ++ [rbrace])
    | .ok .arr =>
      match handleArray value pos with
      | .error e => .error e
      | .ok l =>
        match exMap (fun p => toJsonF value metadata fuel p) l with
        | .error e => .error e
        | .ok parts => .ok ('[' :: List.intercalate [','] parts ++ [']'])
    | .ok t =>
      match getScalar t value metadata pos with
      | .error e => .error e
      | .ok sc => .ok (scalarJson sc)

/-- `dict` update semantics of Python: an existing key keeps its position but
its value is replaced; a new key is appended. -/
def pyDictUpd (d : List (List Nat × PyValue)) (k : List Nat) (v : PyValue) :
    List (List Nat × PyValue) :=
  if k ∈ d.map Prod.fst then d.map (fun e => if e.1 = k then (k, v) else e)
  else d ++ [(k, v)]

/-- Python `dict(key_value_list)`: left-to-right insertion. -/
def pyDictFromList (l : List (List Nat × PyValue)) : List (List Nat × PyValue) :=
  l.foldl (fun d kv => pyDictUpd d kv.1 kv.2) []

/-- Lookup in the modelled `dict` (first, hence unique, matching key). -/
def lookupKey (k : List Nat) : List (List Nat × PyValue) → Option PyValue
  | [] => none
  | e :: r => if e.1 = k then some e.2 else lookupKey k r

/-- `_to_python(value, metadata, pos)`, with explicit recursion fuel. -/
def toPythonF (value metadata : Bytes) : Nat → Nat → Except PyErr PyValue
  | 0, _ => .error .fuelExhausted
  | fuel + 1, pos =>
    match getType value pos with
    | .error e => .error e
    | .ok .dict =>
      match handleObject value metadata pos with
      | .error e => .error e
      | .ok ps =>
        match exMap (fun kp =>
            match toPythonF value metadata fuel kp.2 with
            | .error e => .error e
            | .ok x => .ok (kp.1, x)) ps with
        | .error e => .error e
        | .ok kvs => .ok (.pyDict (pyDictFromList kvs))
    | .ok .arr =>
      match handleArray value pos with
      | .error e => .error e
      | .ok l =>
        match exMap (fun p => toPythonF value metadata fuel p) l with
        | .error e => .error e
        | .ok xs => .ok (.pyList xs)
    | .ok t => getScalar t value metadata pos

/-- `to_json(value, metadata)`: the public JSON materializer.  The fuel
`len(value) + 1` is proved sufficient below (child positions strictly
increase). -/
def to_json (value metadata : Bytes) : Except PyErr (List Char) :=
  toJsonF value metadata (value.length + 1) 0

/-- `to_python(value, metadata)`: the public native materializer. -/
def to_python (value metadata : Bytes) : Except PyErr PyValue :=
  toPythonF value metadata (value.length + 1) 0

/-- A minimal valid metadata buffer: offset size 1, empty dictionary,
one (terminating) offset entry. -/
def minMeta : Bytes := [1, 0, 0]

example : to_json [0] minMeta = .ok ('n' :: 'u' :: 'l' :: 'l' :: []) := rfl
example : to_json [4] minMeta = .ok ('t' :: 'r' :: 'u' :: 'e' :: []) := rfl
example : to_json [9, 97, 98] minMeta = .ok ('"' :: 'a' :: 'b' :: '"' :: []) := rfl
example : to_json [12, 251] minMeta = .ok ('-' :: '5' :: []) := rfl
example : to_json [9] minMeta = .error .malformed := rfl
example : to_python [12, 251] minMeta = .ok (.pyInt (-5)) := rfl
example : to_json [3, 1, 0, 0, 0] minMeta = .ok ('[' :: 'n' :: 'u' :: 'l' :: 'l' :: ']' :: []) := rfl
example :
    to_json [2, 2, 0, 0, 0, 1, 2, 4, 8] [1, 1, 0, 1, 97] =
      .ok (lbrace :: '"' :: 'a' :: '"' :: ':' :: 't' :: 'r' :: 'u' :: 'e' :: ','
        :: '"' :: 'a' :: '"' :: ':' :: 'f' :: 'a' :: 'l' :: 's' :: 'e' :: rbrace :: []) := rfl
example :
    to_python [2, 2, 0, 0, 0, 1, 2, 4, 8] [1, 1, 0, 1, 97] =
      .ok (.pyDict [([97], .pyBool false)]) := rfl

/-! Auxiliary definitions used by claim statements. -/

/-- Little-endian byte encoding of `n` on `k` bytes (for building concrete
inputs). -/
def natToBytesLE (k n : Nat) : Bytes :=
  (List.range k).map (fun i => n / 256 ^ i % 256)

/-- The exact rational value of a Python `Decimal`. -/
def decToRat (d : PyDec) : ℚ :=
  (if d.sign then (-1 : ℚ) else 1) * (d.coeff : ℚ) * (10 : ℚ) ^ d.exp

/-- Number of digits after the decimal point of a rendered number (0 when
there is no point). -/
def fracCount (l : List Char) : Nat :=
  if '.' ∈ l then (l.reverse.takeWhile (fun c => c ≠ '.')).length else 0

/-- A value buffer holding `n` nested single-element arrays around a `null`
(1-byte sizes and offsets; the final offset-table byte is never read by the
decoder but participates in the layout). -/
def nestVal : Nat → Bytes
  | 0 => [0]
  | n + 1 => 3 :: 1 :: 0 :: 0 :: nestVal n

/-- The JSON text of `nestVal n`. -/
def jsonNest (n : Nat) : List Char :=
  List.replicate n '[' ++ ('n' :: 'u' :: 'l' :: 'l' :: []) ++ List.replicate n ']'

/-- The native value of `nestVal n`. -/
def pyNest : Nat → PyValue
  | 0 => .pyNone
  | n + 1 => .pyList [pyNest n]

/-! # Theorems -/

/-- C1: the claim states that every declared multi-byte read range running
past its buffer makes `to_json` / `to_python` fail with `MalformedVariant`.
The code violates this for exactly the reads the claim singles out: the
8-byte double payload is sliced without a bounds check, so a truncated double
raises `struct.error`, and the decimal scale byte is read by direct indexing,
so a truncated decimal raises `IndexError`; only the remaining reads (here,
the decimal unscaled integer) go through the bounds-checked reader and fail
with `MalformedVariant`.  No byte outside the buffers is read in any case
(Python slicing/indexing cannot). -/
theorem c1_truncated_double_and_decimal_errors :
    to_json [28] minMeta = .error .structError
    ∧ to_python [28] minMeta = .error .structError
    ∧ to_json [32] minMeta = .error .indexError
    ∧ to_python [32] minMeta = .error .indexError
    ∧ to_json [32, 0] minMeta = .error .malformed
    ∧ PyErr.structError ≠ PyErr.malformed
    ∧ PyErr.indexError ≠ PyErr.malformed :=
  ⟨rfl, rfl, rfl, rfl, rfl, by decide, by decide⟩

/-- C4 (counterexample): the byte `0x0A` has basic type `2` (Object), not
Primitive/Decimal4, so decoding the spec's example buffer `[0x0A, 0x02, 0x64]`
fails with `MalformedVariant` instead of returning `"1.00"`. -/
theorem c4_counterexample :
    to_json [10, 2, 100] minMeta = .error .malformed := rfl

/-- C4 (amended): the Decimal4 value with scale 2 and unscaled 100 is encoded
as `[0x20, 0x02, 0x64, 0x00, 0x00, 0x00]` (header `0x20`, scale byte, 4-byte
little-endian unscaled integer), and `to_json` renders it as `1.00`. -/
theorem c4_decimal4_json :
    to_json [32, 2, 100, 0, 0, 0] minMeta = .ok ('1' :: '.' :: '0' :: '0' :: []) := rfl

/-- C5: the decoder has no maximum-nesting-depth guard and no iterative work
stack: it decodes a 100-level-deep nested array successfully (by native
recursion in the source), rather than failing closed with a distinct
"too deeply nested" condition. -/
theorem c5_deep_nesting_decodes :
    to_json (nestVal 100) minMeta = .ok (jsonNest 100)
    ∧ to_python (nestVal 100) minMeta = .ok (pyNest 100) :=
  ⟨rfl, rfl⟩

/-- C2 (counterexample): a Decimal16 whose unscaled integer `10^28 + 1` has
29 significant digits is rounded by Python's default 28-digit decimal context:
the decoded value is `10^27 × 10^1 = 10^28`, not the exact rational
`(10^28 + 1) × 10^0`. -/
theorem c2_counterexample :
    to_python (40 :: 0 :: natToBytesLE 16 (10 ^ 28 + 1)) minMeta
      = .ok (.pyDecimal ⟨false, 10 ^ 27, 1⟩)
    ∧ decToRat ⟨false, 10 ^ 27, 1⟩ ≠ ((10 ^ 28 + 1 : ℤ) : ℚ) / 10 ^ (0 : Nat) := by
  constructor
  · rfl
  · intro h
    rw [decToRat] at h
    norm_num at h

/-- C2 (amended): whenever the unscaled integer read by `_get_decimal` has at
most 28 significant decimal digits — which covers all Decimal4 and Decimal8
values, but not every Decimal16 value — the decoded decimal is exactly
`unscaled × 10^(-scale)`, with no rounding. -/
theorem c2_decimal_exact_small (v : Bytes) (pos s : Nat) (u : Int)
    (hsu : getDecimalSU v pos = .ok (s, u))
    (h28 : (decDigits u.natAbs).length ≤ 28) :
    getDecimal v pos = .ok ⟨decide (u < 0), u.natAbs, -(s : Int)⟩
    ∧ decToRat ⟨decide (u < 0), u.natAbs, -(s : Int)⟩ = (u : ℚ) / 10 ^ s := by
  constructor
  · simp only [getDecimal, hsu]
    simp [pyDecMul, h28]
  · have hpow : (10 : ℚ) ^ (-(s : Int)) = ((10 : ℚ) ^ s)⁻¹ := by
      rw [zpow_neg, zpow_natCast]
    rcases le_or_lt 0 u with h | h
    · have hu : ((u.natAbs : ℚ)) = (u : ℚ) := by
        rw [Int.cast_natAbs]
        exact_mod_cast abs_of_nonneg h
      simp only [decToRat]
      rw [show decide (u < 0) = false by simp [not_lt.mpr h]]
      simp only [Bool.false_eq_true, if_false, one_mul]
      rw [hu, hpow, div_eq_mul_inv]
    · have hu : ((u.natAbs : ℚ)) = -(u : ℚ) := by
        rw [Int.cast_natAbs]
        exact_mod_cast abs_of_neg h
      simp only [decToRat]
      rw [show decide (u < 0) = true by simp [h]]
      simp only [if_true]
      rw [hu, hpow, div_eq_mul_inv]
      ring

/-- Witness for `c2_decimal_exact_small` at the Decimal4 value with scale 2,
unscaled 100. -/
theorem c2_decimal_exact_small_witness :
    getDecimalSU [32, 2, 100, 0, 0, 0] 0 = .ok (2, 100)
    ∧ (decDigits (Int.natAbs 100)).length ≤ 28
    ∧ getDecimal [32, 2, 100, 0, 0, 0] 0
        = .ok ⟨decide ((100 : Int) < 0), Int.natAbs 100, -((2 : Nat) : Int)⟩
    ∧ decToRat ⟨decide ((100 : Int) < 0), Int.natAbs 100, -((2 : Nat) : Int)⟩
        = ((100 : Int) : ℚ) / 10 ^ (2 : Nat) := by
  have h := c2_decimal_exact_small [32, 2, 100, 0, 0, 0] 0 2 100 rfl (by decide)
  exact ⟨rfl, by decide, h.1, h.2⟩

/-- Fuel irrelevance for `decDigitsAux`: any fuel at least `n` gives the same
digits. -/
theorem decDigitsAux_congr : ∀ f1 f2 n : Nat, n ≤ f1 → n ≤ f2 →
    decDigitsAux f1 n = decDigitsAux f2 n := by
  intro f1
  induction f1 with
  | zero =>
    intro f2 n h1 _
    interval_cases n
    cases f2 <;> simp [decDigitsAux]
  | succ f ih =>
    intro f2 n h1 h2
    by_cases hn : n = 0
    · subst hn
      cases f2 <;> simp [decDigitsAux]
    · have hpos : 0 < n := Nat.pos_of_ne_zero hn
      cases f2 with
      | zero => omega
      | succ f2 =>
        have hdiv : n / 10 < n := Nat.div_lt_self hpos (by norm_num)
        simp only [decDigitsAux, if_neg hn]
        rw [ih f2 (n / 10) (by omega) (by omega)]

/-- Unfolding equation for `decDigits`. -/
theorem decDigits_eq (n : Nat) :
    decDigits n = if n = 0 then [] else n % 10 :: decDigits (n / 10) := by
  by_cases hn : n = 0
  · subst hn; simp [decDigits, decDigitsAux]
  · have hpos : 0 < n := Nat.pos_of_ne_zero hn
    obtain ⟨m, rfl⟩ : ∃ m, n = m + 1 := ⟨n - 1, by omega⟩
    simp only [decDigits, decDigitsAux, if_neg hn]
    exact congrArg (List.cons ((m + 1) % 10))
      (decDigitsAux_congr m ((m + 1) / 10) ((m + 1) / 10) (by omega) le_rfl)

/-- Every entry of `decDigitsAux` is a decimal digit. -/
theorem decDigitsAux_lt10 : ∀ (fuel n x : Nat), x ∈ decDigitsAux fuel n → x < 10 := by
  intro fuel
  induction fuel with
  | zero => intro n x hx; simp [decDigitsAux] at hx
  | succ f ih =>
    intro n x hx
    by_cases hn : n = 0
    · subst hn; simp [decDigitsAux] at hx
    · simp only [decDigitsAux, if_neg hn, List.mem_cons] at hx
      rcases hx with rfl | hx
      · exact Nat.mod_lt n (by norm_num)
      · exact ih (n / 10) x hx

/-- Every entry of `decDigits` is a decimal digit. -/
theorem decDigits_lt10 (n x : Nat) (hx : x ∈ decDigits n) : x < 10 :=
  decDigitsAux_lt10 n n x hx

/-- `digitChar` of a digit is one of the ten digit characters, hence in
particular not `.`, `E` or `-`. -/
theorem digitChar_safe (d : Nat) (hd : d < 10) :
    digitChar d ≠ '.' ∧ digitChar d ≠ 'E' ∧ digitChar d ≠ '-' := by
  interval_cases d <;> exact ⟨by decide, by decide, by decide⟩

/-- Characters of a rendered coefficient are never `.`, `E` or `-`. -/
theorem coeffChars_safe (c : Nat) (x : Char) (hx : x ∈ coeffChars c) :
    x ≠ '.' ∧ x ≠ 'E' ∧ x ≠ '-' := by
  rw [coeffChars] at hx
  by_cases hc : c = 0
  · rw [if_pos hc] at hx
    simp at hx
    subst hx
    exact ⟨by decide, by decide, by decide⟩
  · rw [if_neg hc] at hx
    simp only [List.mem_map, List.mem_reverse] at hx
    obtain ⟨d, hd, rfl⟩ := hx
    exact digitChar_safe d (decDigits_lt10 c d hd)

/-- The rendered coefficient is never empty. -/
theorem coeffChars_ne_nil (c : Nat) : 1 ≤ (coeffChars c).length := by
  rw [coeffChars]
  by_cases hc : c = 0
  · rw [if_pos hc]; simp
  · rw [if_neg hc]
    rw [decDigits_eq, if_neg hc]
    simp

/-- `takeWhile` of a list whose prefix satisfies the predicate and whose next
element does not. -/
theorem takeWhile_append_stop (p : Char → Bool) (a : List Char) (c : Char) (b : List Char)
    (ha : ∀ x ∈ a, p x = true) (hc : p c = false) :
    (a ++ c :: b).takeWhile p = a := by
  induction a with
  | nil => simp [List.takeWhile, hc]
  | cons x l ih =>
    have hx : p x = true := ha x (by simp)
    simp only [List.cons_append, List.takeWhile, hx, List.append_eq]
    rw [ih (fun y hy => ha y (by simp [hy]))]

/-- `fracCount` of a string without a decimal point. -/
theorem fracCount_no_dot (l : List Char) (h : '.' ∉ l) : fracCount l = 0 := by
  simp [fracCount, h]

/-- `fracCount` of `pre ++ "." ++ suf` with no point in `suf` is the length
of `suf`. -/
theorem fracCount_split (pre suf : List Char) (hsuf : '.' ∉ suf) :
    fracCount (pre ++ '.' :: suf) = suf.length := by
  have hmem : '.' ∈ pre ++ '.' :: suf := by simp
  rw [fracCount, if_pos hmem]
  rw [List.reverse_append, List.reverse_cons]
  rw [List.append_assoc, List.singleton_append]
  rw [takeWhile_append_stop _ _ '.' _ ?hall ?hstop]
  · exact List.length_reverse suf
  case hall =>
    intro x hx
    rw [List.mem_reverse] at hx
    have : x ≠ '.' := fun h => hsuf (h ▸ hx)
    simp [this]
  case hstop => simp

/-- Rendering a decimal with nonpositive exponent and adjusted exponent at
least -6: exactly the scale many fractional digits, no exponent marker
(the plain-notation branch of Python's to-scientific-string algorithm). -/
theorem decStr_plain (sg : Bool) (c s : Nat)
    (hadj : (-6 : Int) < ((coeffChars c).length : Int) - (s : Int)) :
    fracCount (decStr ⟨sg, c, -(s : Int)⟩) = s ∧ 'E' ∉ decStr ⟨sg, c, -(s : Int)⟩ := by
  have hL := coeffChars_ne_nil c
  have hc0 : -(s : Int) ≤ 0 ∧ -(s : Int) + ((coeffChars c).length : Int) > -6 :=
    ⟨by omega, by omega⟩
  have hexp : (-(s : Int) + ((coeffChars c).length : Int))
      = (-(s : Int) + ((coeffChars c).length : Int)) := rfl
  have hsafe : ∀ x ∈ coeffChars c, x ≠ '.' ∧ x ≠ 'E' ∧ x ≠ '-' := coeffChars_safe c
  rcases Nat.eq_zero_or_pos s with hs0 | hs1
  · -- s = 0: no decimal point at all
    have h3 : ¬(-(s : Int) + ((coeffChars c).length : Int) ≤ 0) := by omega
    have h4 : -(s : Int) + ((coeffChars c).length : Int) ≥ ((coeffChars c).length : Int) := by
      omega
    have h5 : (-(s : Int) + ((coeffChars c).length : Int) - ((coeffChars c).length : Int)).toNat
        = 0 := by omega
    have hshape : decStr ⟨sg, c, -(s : Int)⟩ = (if sg then ['-'] else []) ++ coeffChars c := by
      simp only [decStr, if_pos hc0, if_neg h3, if_pos h4, if_pos hexp, h5,
        List.replicate_zero, List.append_nil, eq_self_iff_true, if_true]
    rw [hshape]
    constructor
    · rw [hs0]
      apply fracCount_no_dot
      intro hmem
      rcases List.mem_append.mp hmem with h | h
      · cases sg <;> exact absurd h (by decide)
      · exact (hsafe '.' h).1 rfl
    · intro hmem
      rcases List.mem_append.mp hmem with h | h
      · cases sg <;> exact absurd h (by decide)
      · exact (hsafe 'E' h).2.1 rfl
  · rcases Nat.lt_or_ge s (coeffChars c).length with hsL | hLs
    · -- 0 < s < L: point inside the digits
      have h3 : ¬(-(s : Int) + ((coeffChars c).length : Int) ≤ 0) := by omega
      have h4 : ¬(-(s : Int) + ((coeffChars c).length : Int) ≥ ((coeffChars c).length : Int)) := by
        omega
      have h5 : (-(s : Int) + ((coeffChars c).length : Int)).toNat
          = (coeffChars c).length - s := by omega
      have hshape : decStr ⟨sg, c, -(s : Int)⟩ =
          ((if sg then ['-'] else []) ++ (coeffChars c).take ((coeffChars c).length - s)) ++
            ('.' :: (coeffChars c).drop ((coeffChars c).length - s)) := by
        simp only [decStr, if_pos hc0, if_neg h3, if_neg h4, if_pos hexp, h5, List.append_nil,
          List.append_assoc, eq_self_iff_true, if_true]
      rw [hshape]
      have hsuf : '.' ∉ (coeffChars c).drop ((coeffChars c).length - s) := fun hm =>
        (hsafe '.' (List.drop_subset _ _ hm)).1 rfl
      constructor
      · rw [fracCount_split _ _ hsuf]
        rw [List.length_drop]
        omega
      · intro hmem
        rcases List.mem_append.mp hmem with h | h
        · rcases List.mem_append.mp h with h | h
          · cases sg <;> exact absurd h (by decide)
          · exact (hsafe 'E' (List.take_subset _ _ h)).2.1 rfl
        · rcases List.mem_cons.mp h with h | h
          · exact absurd h (by decide)
          · exact (hsafe 'E' (List.drop_subset _ _ h)).2.1 rfl
    · -- 0 < s, L <= s: zero-padded fraction
      have h3 : -(s : Int) + ((coeffChars c).length : Int) ≤ 0 := by omega
      have h5 : (-(-(s : Int) + ((coeffChars c).length : Int))).toNat
          = s - (coeffChars c).length := by omega
      have hshape : decStr ⟨sg, c, -(s : Int)⟩ =
          ((if sg then ['-'] else []) ++ ['0']) ++
            ('.' :: (List.replicate (s - (coeffChars c).length) '0' ++ coeffChars c)) := by
        simp only [decStr, if_pos hc0, if_pos h3, if_pos hexp, h5, List.append_nil,
          List.append_assoc, eq_self_iff_true, if_true]
      rw [hshape]
      have hsuf : '.' ∉ List.replicate (s - (coeffChars c).length) '0' ++ coeffChars c := by
        intro hm
        rcases List.mem_append.mp hm with h | h
        · rw [List.mem_replicate] at h
          exact absurd h.2 (by decide)
        · exact (hsafe '.' h).1 rfl
      constructor
      · rw [fracCount_split _ _ hsuf]
        rw [List.length_append, List.length_replicate]
        omega
      · intro hmem
        rcases List.mem_append.mp hmem with h | h
        · rcases List.mem_append.mp h with h | h
          · cases sg <;> exact absurd h (by decide)
          · exact absurd h (by decide)
        · rcases List.mem_cons.mp h with h | h
          · exact absurd h (by decide)
          · rcases List.mem_append.mp h with h | h
            · rw [List.mem_replicate] at h
              exact absurd h.2 (by decide)
            · exact (hsafe 'E' h).2.1 rfl

/-- A successful `_get_decimal` read implies the header resolves to the
Decimal kind. -/
theorem getDecimalSU_getType (v : Bytes) (pos s : Nat) (u : Int)
    (h : getDecimalSU v pos = .ok (s, u)) : getType v pos = .ok .dec := by
  unfold getDecimalSU at h
  split at h
  next e heq => exact Except.noConfusion h
  next w heq =>
  split at h
  next e heq2 => exact Except.noConfusion h
  next bt ti heq2 =>
  split at h
  next hbt => exact Except.noConfusion h
  next hbt =>
  rw [not_not] at hbt
  split at h
  next e heq3 => exact Except.noConfusion h
  next scale heq3 =>
  have hti : ti = DECIMAL4 ∨ ti = DECIMAL8 ∨ ti = DECIMAL16 := by
    by_contra hcon
    push_neg at hcon
    rw [if_neg hcon.1, if_neg hcon.2.1, if_neg hcon.2.2] at h
    exact Except.noConfusion h
  unfold getType
  simp only [heq, heq2]
  subst hbt
  rcases hti with rfl | rfl | rfl <;> decide

/-- On a position of Decimal kind, `_to_json` renders exactly the string of
the decimal returned by `_get_decimal`. -/
theorem toJsonF_dec (v m : Bytes) (fuel pos : Nat) (out : List Char)
    (hty : getType v pos = .ok .dec) (hout : toJsonF v m fuel pos = .ok out) :
    ∃ d, getDecimal v pos = .ok d ∧ out = decStr d := by
  cases fuel with
  | zero => exact Except.noConfusion hout
  | succ f =>
    unfold toJsonF at hout
    rw [hty] at hout
    unfold getScalar at hout
    cases hd : getDecimal v pos with
    | error e => rw [hd] at hout; exact Except.noConfusion hout
    | ok d =>
      rw [hd] at hout
      refine ⟨d, rfl, ?_⟩
      have : scalarJson (.pyDecimal d) = out := Except.ok.inj hout
      rw [← this]
      rfl

/-- C3 (counterexample): the Decimal4 value with scale 7 and unscaled 1
renders as `1E-7`: scientific notation, with no fractional digits rather
than 7 of them (Python's `str(Decimal)` switches to scientific notation
when the adjusted exponent is below -6). -/
theorem c3_counterexample :
    to_json [32, 7, 1, 0, 0, 0] minMeta = .ok ('1' :: 'E' :: '-' :: '7' :: [])
    ∧ 'E' ∈ ('1' :: 'E' :: '-' :: '7' :: [])
    ∧ fracCount ('1' :: 'E' :: '-' :: '7' :: []) ≠ 7 :=
  ⟨rfl, by decide, by decide⟩

/-- C3 (amended): the JSON text of a well-formed decimal has exactly `scale`
digits after the decimal point and no exponent notation, provided the
unscaled integer has at most 28 significant digits (no context rounding, see
C2) and the value's adjusted exponent is at least -6 (i.e. the number of
coefficient digits exceeds `scale - 7`); outside those bounds Python's
`str(Decimal)` switches to scientific notation. -/
theorem c3_decimal_rendering (v m : Bytes) (pos s fuel : Nat) (u : Int) (out : List Char)
    (hsu : getDecimalSU v pos = .ok (s, u))
    (h28 : (decDigits u.natAbs).length ≤ 28)
    (hadj : (-6 : Int) < ((coeffChars u.natAbs).length : Int) - (s : Int))
    (hout : toJsonF v m fuel pos = .ok out) :
    fracCount out = s ∧ 'E' ∉ out := by
  obtain ⟨d, hd, hout_eq⟩ :=
    toJsonF_dec v m fuel pos out (getDecimalSU_getType v pos s u hsu) hout
  have hd2 : getDecimal v pos = .ok (pyDecMul u s) := by
    simp only [getDecimal, hsu]
  have hdd : d = pyDecMul u s := Except.ok.inj (hd ▸ hd2)
  have hmul : pyDecMul u s = ⟨decide (u < 0), u.natAbs, -(s : Int)⟩ := by
    simp [pyDecMul, h28]
  rw [hout_eq, hdd, hmul]
  exact decStr_plain (decide (u < 0)) u.natAbs s hadj

/-- Witness for `c3_decimal_rendering`: scale 2, unscaled 100 renders as
`1.00`, with 2 fractional digits and no exponent. -/
theorem c3_decimal_rendering_witness :
    getDecimalSU [32, 2, 100, 0, 0, 0] 0 = .ok (2, 100)
    ∧ (decDigits (Int.natAbs 100)).length ≤ 28
    ∧ (-6 : Int) < ((coeffChars (Int.natAbs 100)).length : Int) - ((2 : Nat) : Int)
    ∧ toJsonF [32, 2, 100, 0, 0, 0] minMeta 7 0 = .ok ('1' :: '.' :: '0' :: '0' :: [])
    ∧ fracCount ('1' :: '.' :: '0' :: '0' :: []) = 2
    ∧ 'E' ∉ ('1' :: '.' :: '0' :: '0' :: []) := by
  have h := c3_decimal_rendering [32, 2, 100, 0, 0, 0] minMeta 0 2 7 100
    ('1' :: '.' :: '0' :: '0' :: []) rfl (by decide) (by decide) rfl
  exact ⟨rfl, by decide, by decide, rfl, h.1, h.2⟩

/-- C6 (amended): `_get_metadata_key` fails with `MalformedVariant` when the
field id is at least `dict_size` and when the id's offset-table entry exceeds
the following entry; when the key bytes are not valid UTF-8 it fails with a
`UnicodeDecodeError` (not `MalformedVariant`). -/
theorem c6_key_lookup (m : Bytes) (id b0 ds : Nat)
    (hlen : 0 < m.length)
    (hb0 : byteAt m 0 = .ok b0)
    (hds : readU m 1 (b0 / 64 % 4 + 1) = .ok ds) :
    (ds ≤ id → getMetadataKey m id = .error .malformed)
    ∧ (∀ off noff : Nat, id < ds →
        readU m (1 + (id + 1) * (b0 / 64 % 4 + 1)) (b0 / 64 % 4 + 1) = .ok off →
        readU m (1 + (id + 2) * (b0 / 64 % 4 + 1)) (b0 / 64 % 4 + 1) = .ok noff →
        (noff < off → getMetadataKey m id = .error .malformed)
        ∧ (off ≤ noff →
            1 + (ds + 2) * (b0 / 64 % 4 + 1) + noff - 1 < m.length →
            utf8Decode (sliceBytes m (1 + (ds + 2) * (b0 / 64 % 4 + 1) + off) (noff - off))
              = none →
            getMetadataKey m id = .error .unicodeError)) := by
  have hci : checkIndex 0 m.length = .ok () := by
    unfold checkIndex
    rw [if_neg (by omega)]
  constructor
  · intro hge
    unfold getMetadataKey
    simp only [hci, hb0, hds]
    rw [if_pos hge]
  · intro off noff hlt hoff hnoff
    constructor
    · intro hmono
      unfold getMetadataKey
      simp only [hci, hb0, hds, hoff, hnoff]
      rw [if_neg (by omega), if_pos (by omega)]
    · intro hle hbound hutf
      unfold getMetadataKey
      simp only [hci, hb0, hds, hoff, hnoff]
      rw [if_neg (by omega), if_neg (by omega)]
      have hck : checkIndex (1 + (ds + 2) * (b0 / 64 % 4 + 1) + noff - 1) m.length = .ok () := by
        unfold checkIndex
        rw [if_neg (by omega)]
      simp only [hck, hutf]

/-- Witness for `c6_key_lookup`: an out-of-range id, a non-monotonic offset
pair and an invalid UTF-8 key on concrete metadata buffers. -/
theorem c6_key_lookup_witness :
    getMetadataKey [1, 1, 0, 1, 97] 5 = .error .malformed
    ∧ getMetadataKey [1, 1, 5, 0] 0 = .error .malformed
    ∧ getMetadataKey [1, 1, 0, 1, 255] 0 = .error .unicodeError :=
  ⟨(c6_key_lookup [1, 1, 0, 1, 97] 5 1 1 (by decide) rfl rfl).1 (by decide),
   ((c6_key_lookup [1, 1, 5, 0] 0 1 1 (by decide) rfl rfl).2 5 0 (by decide) rfl rfl).1
     (by decide),
   (((c6_key_lookup [1, 1, 0, 1, 255] 0 1 1 (by decide) rfl rfl).2 0 1 (by decide) rfl
     rfl).2 (by decide) (by decide) rfl)⟩

/-- C6 (counterexample): a key whose bytes are not valid UTF-8 makes
`_get_metadata_key` fail with `UnicodeDecodeError`, not with
`MalformedVariant` as the claim states. -/
theorem c6_counterexample :
    getMetadataKey [1, 1, 0, 1, 255] 0 = .error .unicodeError
    ∧ PyErr.unicodeError ≠ PyErr.malformed :=
  ⟨rfl, by decide⟩

/-- Pointwise-successful `exMap` is `map`. -/
theorem exMap_ok_of_forall {α β : Type} (f : α → Except PyErr β) (g : α → β) :
    ∀ l : List α, (∀ a ∈ l, f a = .ok (g a)) → exMap f l = .ok (l.map g) := by
  intro l
  induction l with
  | nil => intro _; rfl
  | cons a t ih =>
    intro h
    simp only [exMap, h a (by simp), ih (fun x hx => h x (by simp [hx])), List.map_cons]

/-- A failing `exMap` has a failing element. -/
theorem exMap_error_mem {α β : Type} (f : α → Except PyErr β) (e : PyErr) :
    ∀ l : List α, exMap f l = .error e → ∃ a ∈ l, f a = .error e := by
  intro l
  induction l with
  | nil => intro h; exact Except.noConfusion h
  | cons a t ih =>
    intro h
    rw [exMap] at h
    cases hfa : f a with
    | error e1 =>
      rw [hfa] at h
      exact ⟨a, by simp, by rw [hfa, Except.error.inj h]⟩
    | ok b =>
      rw [hfa] at h
      cases ht : exMap f t with
      | error e1 =>
        rw [ht] at h
        obtain ⟨x, hx, hfx⟩ := ih (by rw [ht, Except.error.inj h])
        exact ⟨x, by simp [hx], hfx⟩
      | ok bs => rw [ht] at h; exact Except.noConfusion h

/-- Every output element of a successful `exMap` comes from an input
element. -/
theorem exMap_ok_mem {α β : Type} (f : α → Except PyErr β) :
    ∀ (l : List α) (out : List β), exMap f l = .ok out →
      ∀ b ∈ out, ∃ a ∈ l, f a = .ok b := by
  intro l
  induction l with
  | nil =>
    intro out h b hb
    rw [exMap] at h
    rw [← Except.ok.inj h] at hb
    simp at hb
  | cons a t ih =>
    intro out h b hb
    rw [exMap] at h
    cases hfa : f a with
    | error e1 => rw [hfa] at h; exact Except.noConfusion h
    | ok b1 =>
      rw [hfa] at h
      cases ht : exMap f t with
      | error e1 => rw [ht] at h; exact Except.noConfusion h
      | ok bs =>
        rw [ht] at h
        rw [← Except.ok.inj h] at hb
        rcases List.mem_cons.mp hb with rfl | hb2
        · exact ⟨a, by simp, hfa⟩
        · obtain ⟨x, hx, hfx⟩ := ih bs ht b hb2
          exact ⟨x, by simp [hx], hfx⟩

/-- `exMap` over a mapped list. -/
theorem exMap_map {α β γ : Type} (f : β → Except PyErr γ) (g : α → β) :
    ∀ l : List α, exMap f (l.map g) = exMap (fun a => f (g a)) l := by
  intro l
  induction l with
  | nil => rfl
  | cons a t ih =>
    simp only [List.map_cons, exMap, ih]

/-- C8: the object decoder returns the `(key, child position)` pairs exactly
in stored field order -- entry `i` holds the key of the `i`-th stored field id
and the child position `data_start + offset_i` -- with no re-sorting and no
duplicate check, and the JSON materializer emits the members in that same
order. -/
theorem c8_object_order (v m : Bytes) (pos ti n : Nat) (ids offs : Nat → Nat)
    (keys : Nat → List Nat)
    (hpos : pos < v.length)
    (hti : getTypeInfo v pos = .ok (OBJECT, ti))
    (hn : readU v (pos + 1) (objSizeBytes ti) = .ok n)
    (hid : ∀ i, i < n →
      readU v (objIdStart pos ti + objIdSize ti * i) (objIdSize ti) = .ok (ids i))
    (hoff : ∀ i, i < n →
      readU v (objOffsetStart pos ti n + objOffsetSize ti * i) (objOffsetSize ti)
        = .ok (offs i))
    (hkey : ∀ i, i < n → getMetadataKey m (ids i) = .ok (keys i)) :
    handleObject v m pos
      = .ok ((List.range n).map (fun i => (keys i, objDataStart pos ti n + offs i)))
    ∧ ∀ (fuel : Nat) (js : Nat → List Char),
        (∀ i, i < n → toJsonF v m fuel (objDataStart pos ti n + offs i) = .ok (js i)) →
        toJsonF v m (fuel + 1) pos =
          .ok (lbrace :: List.intercalate [',']
            ((List.range n).map (fun i => jsonDumps (keys i) ++ ':' :: js i)) ++ [rbrace]) := by
  have hci : checkIndex pos v.length = .ok () := by
    unfold checkIndex
    rw [if_neg (by omega)]
  have h1 : handleObject v m pos
      = .ok ((List.range n).map (fun i => (keys i, objDataStart pos ti n + offs i))) := by
    unfold handleObject
    simp only [hci, hti, hn]
    rw [if_neg (by simp)]
    rw [exMap_ok_of_forall _ (fun i => (keys i, objDataStart pos ti n + offs i))]
    intro i hi
    rw [List.mem_range] at hi
    simp only [hid i hi, hoff i hi, hkey i hi]
  refine ⟨h1, ?_⟩
  intro fuel js hjs
  have hty : getType v pos = .ok .dict := by
    unfold getType
    simp only [hci, hti]
    simp [OBJECT, SHORT_STR]
  unfold toJsonF
  simp only [hty, h1, exMap_map]
  rw [exMap_ok_of_forall _ (fun i => jsonDumps (keys i) ++ ':' :: js i) (List.range n) ?hfa]
  case hfa =>
    intro i hi
    rw [List.mem_range] at hi
    simp only [hjs i hi]

/-- Updating an existing key in the modelled `dict`. -/
theorem lookupKey_map_upd (k : List Nat) (v : PyValue) :
    ∀ d : List (List Nat × PyValue), k ∈ d.map Prod.fst →
      lookupKey k (d.map (fun e => if e.1 = k then (k, v) else e)) = some v := by
  intro d
  induction d with
  | nil => intro h; simp at h
  | cons e t ih =>
    intro h
    by_cases he : e.1 = k
    · simp only [List.map_cons, if_pos he, lookupKey, eq_self_iff_true, if_true]
    · simp only [List.map_cons, if_neg he, lookupKey, if_neg he]
      apply ih
      simp only [List.map_cons, List.mem_cons] at h
      rcases h with h | h
      · exact absurd h.symm he
      · exact h

/-- Updating one key leaves lookups of other keys unchanged (map case). -/
theorem lookupKey_map_upd_other (k k' : List Nat) (v : PyValue) (hne : k' ≠ k) :
    ∀ d : List (List Nat × PyValue),
      lookupKey k (d.map (fun e => if e.1 = k' then (k', v) else e)) = lookupKey k d := by
  intro d
  induction d with
  | nil => rfl
  | cons e t ih =>
    by_cases he : e.1 = k'
    · simp only [List.map_cons, if_pos he, lookupKey, if_neg hne, if_neg (he ▸ hne)]
      exact ih
    · simp only [List.map_cons, if_neg he, lookupKey]
      by_cases hek : e.1 = k
      · simp only [if_pos hek]
      · simp only [if_neg hek]
        exact ih

/-- Appending an entry for a different key leaves a lookup unchanged. -/
theorem lookupKey_append_single_other (k k' : List Nat) (v : PyValue) (hne : k' ≠ k) :
    ∀ d : List (List Nat × PyValue), lookupKey k (d ++ [(k', v)]) = lookupKey k d := by
  intro d
  induction d with
  | nil => simp [lookupKey, hne]
  | cons e t ih =>
    simp only [List.cons_append, lookupKey]
    by_cases hek : e.1 = k
    · simp only [if_pos hek]
    · simp only [if_neg hek]
      exact ih

/-- `dict` update followed by lookup of the same key. -/
theorem lookupKey_pyDictUpd_same (d : List (List Nat × PyValue)) (k : List Nat) (v : PyValue) :
    lookupKey k (pyDictUpd d k v) = some v := by
  unfold pyDictUpd
  by_cases hk : k ∈ d.map Prod.fst
  · rw [if_pos hk]
    exact lookupKey_map_upd k v d hk
  · rw [if_neg hk]
    have : ∀ t : List (List Nat × PyValue), (∀ e ∈ t, e.1 ≠ k) →
        lookupKey k (t ++ [(k, v)]) = some v := by
      intro t
      induction t with
      | nil => intro _; simp [lookupKey]
      | cons e s ih =>
        intro h
        simp only [List.cons_append, lookupKey, if_neg (h e (by simp))]
        exact ih (fun x hx => h x (by simp [hx]))
    apply this
    intro e he hek
    exact hk (by
      rw [List.mem_map]
      exact ⟨e, he, hek⟩)

/-- `dict` update followed by lookup of a different key. -/
theorem lookupKey_pyDictUpd_other (d : List (List Nat × PyValue)) (k k' : List Nat)
    (v : PyValue) (hne : k' ≠ k) :
    lookupKey k (pyDictUpd d k' v) = lookupKey k d := by
  unfold pyDictUpd
  by_cases hk : k' ∈ d.map Prod.fst
  · rw [if_pos hk]
    exact lookupKey_map_upd_other k k' v hne d
  · rw [if_neg hk]
    exact lookupKey_append_single_other k k' v hne d

/-- Inserting entries whose keys avoid `k` does not change `k`'s binding. -/
theorem foldl_upd_not_mem (k : List Nat) :
    ∀ (ys : List (List Nat × PyValue)) (d : List (List Nat × PyValue)),
      k ∉ ys.map Prod.fst →
      lookupKey k (ys.foldl (fun d kv => pyDictUpd d kv.1 kv.2) d) = lookupKey k d := by
  intro ys
  induction ys with
  | nil => intro d _; rfl
  | cons y t ih =>
    intro d h
    simp only [List.map_cons, List.mem_cons] at h
    push_neg at h
    rw [List.foldl_cons, ih (pyDictUpd d y.1 y.2) h.2]
    exact lookupKey_pyDictUpd_other d k y.1 y.2 (fun he => h.1 he.symm)

/-- Python `dict` built from a pair list: a key maps to the value of its
last occurrence. -/
theorem pyDictFromList_lookup_last (k : List Nat) (v : PyValue)
    (l r : List (List Nat × PyValue)) (hr : k ∉ r.map Prod.fst) :
    lookupKey k (pyDictFromList (l ++ (k, v) :: r)) = some v := by
  unfold pyDictFromList
  rw [List.foldl_append, List.foldl_cons]
  rw [foldl_upd_not_mem k r _ hr]
  exact lookupKey_pyDictUpd_same _ k v

/-- A successful object parse implies the header resolves to the dict
kind. -/
theorem handleObject_getType (v m : Bytes) (pos : Nat) (ps : List (List Nat × Nat))
    (h : handleObject v m pos = .ok ps) : getType v pos = .ok .dict := by
  unfold handleObject at h
  split at h
  next e heq => exact Except.noConfusion h
  next w heq =>
  split at h
  next e heq2 => exact Except.noConfusion h
  next bt ti heq2 =>
  split at h
  next hbt => exact Except.noConfusion h
  next hbt =>
  rw [not_not] at hbt
  subst hbt
  unfold getType
  simp only [heq, heq2]
  simp [OBJECT, SHORT_STR]

/-- C9: for an object whose pair list contains a duplicated key `k` (one
occurrence in the prefix `l`, the last one at `(k, p2)`), the JSON
materializer emits every member, duplicates included, in stored order, while
the native materializer returns a `dict` in which `k` is bound to the decoding
of the last occurrence `p2`. -/
theorem c9_duplicate_keys (v m : Bytes) (fuel : Nat) (ps l r : List (List Nat × Nat))
    (k : List Nat) (p2 : Nat)
    (hobj : handleObject v m 0 = .ok ps)
    (hsplit : ps = l ++ (k, p2) :: r)
    (_hdup : k ∈ l.map Prod.fst)
    (hlast : k ∉ r.map Prod.fst)
    (js : List Nat × Nat → List Char) (pv : List Nat × Nat → PyValue)
    (hjs : ∀ q ∈ ps, toJsonF v m fuel q.2 = .ok (js q))
    (hpv : ∀ q ∈ ps, toPythonF v m fuel q.2 = .ok (pv q)) :
    toJsonF v m (fuel + 1) 0
      = .ok (lbrace :: List.intercalate [',']
          (ps.map (fun q => jsonDumps q.1 ++ ':' :: js q)) ++ [rbrace])
    ∧ toPythonF v m (fuel + 1) 0
        = .ok (.pyDict (pyDictFromList (ps.map (fun q => (q.1, pv q)))))
    ∧ lookupKey k (pyDictFromList (ps.map (fun q => (q.1, pv q)))) = some (pv (k, p2)) := by
  have hty : getType v 0 = .ok .dict := handleObject_getType v m 0 ps hobj
  refine ⟨?_, ?_, ?_⟩
  · unfold toJsonF
    simp only [hty, hobj]
    rw [exMap_ok_of_forall _ (fun q => jsonDumps q.1 ++ ':' :: js q) ps ?hja]
    case hja =>
      intro q hq
      simp only [hjs q hq]
  · unfold toPythonF
    simp only [hty, hobj]
    rw [exMap_ok_of_forall _ (fun q => (q.1, pv q)) ps ?hpa]
    case hpa =>
      intro q hq
      simp only [hpv q hq]
  · rw [hsplit]
    rw [List.map_append, List.map_cons]
    apply pyDictFromList_lookup_last
    intro hmem
    apply hlast
    rw [List.map_map] at hmem
    exact hmem

/-- Witness for `c8_object_order`: the two-field object with keys `a`, `b`
and values `null`, `true`. -/
theorem c8_object_order_witness :
    handleObject [2, 2, 0, 1, 0, 1, 2, 0, 4] [1, 2, 0, 1, 2, 97, 98] 0
      = .ok ((List.range 2).map
          (fun i => ((if i = 0 then [97] else [98]), objDataStart 0 0 2 + i)))
    ∧ toJsonF [2, 2, 0, 1, 0, 1, 2, 0, 4] [1, 2, 0, 1, 2, 97, 98] (1 + 1) 0
        = .ok (lbrace :: List.intercalate [','] ((List.range 2).map (fun i =>
            jsonDumps (if i = 0 then [97] else [98]) ++ ':' ::
              (if i = 0 then ('n' :: 'u' :: 'l' :: 'l' :: [])
               else ('t' :: 'r' :: 'u' :: 'e' :: [])))) ++ [rbrace]) := by
  have h := c8_object_order [2, 2, 0, 1, 0, 1, 2, 0, 4] [1, 2, 0, 1, 2, 97, 98] 0 0 2
    (fun i => i) (fun i => i) (fun i => if i = 0 then [97] else [98])
    (by decide) rfl rfl (by decide) (by decide) (by decide)
  exact ⟨h.1, h.2 1
    (fun i => if i = 0 then ('n' :: 'u' :: 'l' :: 'l' :: [])
              else ('t' :: 'r' :: 'u' :: 'e' :: [])) (by decide)⟩

/-- Witness for `c9_duplicate_keys`: the object `[2,2,0,0,0,1,2,4,8]` stores
the key-id 0 twice (key `a`), with values `true` then `false`. -/
theorem c9_duplicate_keys_witness :
    toJsonF [2, 2, 0, 0, 0, 1, 2, 4, 8] [1, 1, 0, 1, 97] (1 + 1) 0
      = .ok (lbrace :: List.intercalate [',']
          (([([97], 7), ([97], 8)] : List (List Nat × Nat)).map (fun q =>
            jsonDumps q.1 ++ ':' ::
              (if q.2 = 7 then ('t' :: 'r' :: 'u' :: 'e' :: [])
               else ('f' :: 'a' :: 'l' :: 's' :: 'e' :: [])))) ++ [rbrace])
    ∧ toPythonF [2, 2, 0, 0, 0, 1, 2, 4, 8] [1, 1, 0, 1, 97] (1 + 1) 0
        = .ok (.pyDict (pyDictFromList
            (([([97], 7), ([97], 8)] : List (List Nat × Nat)).map (fun q =>
              (q.1, if q.2 = 7 then PyValue.pyBool true else PyValue.pyBool false)))))
    ∧ lookupKey [97] (pyDictFromList
          (([([97], 7), ([97], 8)] : List (List Nat × Nat)).map (fun q =>
            (q.1, if q.2 = 7 then PyValue.pyBool true else PyValue.pyBool false))))
        = some (if (8 : Nat) = 7 then PyValue.pyBool true else PyValue.pyBool false) := by
  have h := c9_duplicate_keys [2, 2, 0, 0, 0, 1, 2, 4, 8] [1, 1, 0, 1, 97] 1
    [([97], 7), ([97], 8)] [([97], 7)] [] [97] 8
    rfl rfl (by decide) (by decide)
    (fun q => if q.2 = 7 then ('t' :: 'r' :: 'u' :: 'e' :: [])
              else ('f' :: 'a' :: 'l' :: 's' :: 'e' :: []))
    (fun q => if q.2 = 7 then PyValue.pyBool true else PyValue.pyBool false)
    (by decide)
    (by
      intro q hq
      rcases List.mem_cons.mp hq with rfl | hq2
      · rfl
      · rcases List.mem_cons.mp hq2 with rfl | hq3
        · rfl
        · exact absurd hq3 (List.not_mem_nil q))
  exact h

/-- A failing bounds check raises the `Malformed Variant` exception. -/
theorem checkIndex_error (p l : Nat) (e : PyErr) (h : checkIndex p l = .error e) :
    e = .malformed := by
  unfold checkIndex at h
  split at h
  · exact (Except.error.inj h).symm
  · exact Except.noConfusion h

/-- A failing direct index raises `IndexError`. -/
theorem byteAt_error (d : Bytes) (p : Nat) (e : PyErr) (h : byteAt d p = .error e) :
    e = .indexError := by
  unfold byteAt at h
  split at h
  · exact Except.noConfusion h
  · exact (Except.error.inj h).symm

/-- A failing header split raises `IndexError`. -/
theorem getTypeInfo_error (v : Bytes) (p : Nat) (e : PyErr) (h : getTypeInfo v p = .error e) :
    e = .indexError := by
  unfold getTypeInfo at h
  split at h
  next e1 heq =>
    rw [← Except.error.inj h]
    exact byteAt_error _ _ _ heq
  next b heq => exact Except.noConfusion h

/-- A failing bounds-checked read raises `Malformed Variant`. -/
theorem readLong_error (d : Bytes) (p n : Nat) (sg : Bool) (e : PyErr)
    (h : readLong d p n sg = .error e) : e = .malformed := by
  unfold readLong at h
  split at h
  next e1 heq =>
    rw [← Except.error.inj h]
    exact checkIndex_error _ _ _ heq
  next w heq =>
  split at h
  next e1 heq2 =>
    rw [← Except.error.inj h]
    exact checkIndex_error _ _ _ heq2
  next w2 heq2 => exact Except.noConfusion h

/-- A failing unsigned read raises `Malformed Variant`. -/
theorem readU_error (d : Bytes) (p n : Nat) (e : PyErr)
    (h : readU d p n = .error e) : e = .malformed := by
  unfold readU at h
  split at h
  next e1 heq =>
    rw [← Except.error.inj h]
    exact readLong_error _ _ _ _ _ heq
  next i heq => exact Except.noConfusion h

/-- The key lookup can only fail with `Malformed Variant`, `IndexError` or `UnicodeDecodeError`. -/
theorem getMetadataKey_error (md : Bytes) (id : Nat) (e : PyErr)
    (h : getMetadataKey md id = .error e) :
    e = .malformed ∨ e = .indexError ∨ e = .unicodeError := by
  unfold getMetadataKey at h
  split at h
  next e1 heq =>
    rw [← Except.error.inj h]
    exact Or.inl (checkIndex_error _ _ _ heq)
  next w heq =>
  split at h
  next e1 heq2 =>
    rw [← Except.error.inj h]
    exact Or.inr (Or.inl (byteAt_error _ _ _ heq2))
  next b0 heq2 =>
  dsimp only at h
  split at h
  next e1 heq3 =>
    rw [← Except.error.inj h]
    exact Or.inl (readU_error _ _ _ _ heq3)
  next ds heq3 =>
  split at h
  · exact Or.inl (Except.error.inj h).symm
  next hid =>
  split at h
  next e1 heq4 =>
    rw [← Except.error.inj h]
    exact Or.inl (readU_error _ _ _ _ heq4)
  next off heq4 =>
  split at h
  next e1 heq5 =>
    rw [← Except.error.inj h]
    exact Or.inl (readU_error _ _ _ _ heq5)
  next noff heq5 =>
  split at h
  · exact Or.inl (Except.error.inj h).symm
  next hmono =>
  split at h
  next e1 heq6 =>
    rw [← Except.error.inj h]
    exact Or.inl (checkIndex_error _ _ _ heq6)
  next w2 heq6 =>
  split at h
  next heq7 => exact Or.inr (Or.inr (Except.error.inj h).symm)
  next cps heq7 => exact Except.noConfusion h

/-- The kind resolver can only fail with `Malformed Variant` or `IndexError`. -/
theorem getType_error (v : Bytes) (p : Nat) (e : PyErr) (h : getType v p = .error e) :
    e = .malformed ∨ e = .indexError := by
  unfold getType at h
  split at h
  next e1 heq =>
    rw [← Except.error.inj h]
    exact Or.inl (checkIndex_error _ _ _ heq)
  next w heq =>
  split at h
  next e1 heq2 =>
    rw [← Except.error.inj h]
    exact Or.inr (getTypeInfo_error _ _ _ heq2)
  next bt ti heq2 =>
  split at h
  next h1 => exact Except.noConfusion h
  next h1 =>
  split at h
  next h2 => exact Except.noConfusion h
  next h2 =>
  split at h
  next h3 => exact Except.noConfusion h
  next h3 =>
  split at h
  next h4 => exact Except.noConfusion h
  next h4 =>
  split at h
  next h5 => exact Except.noConfusion h
  next h5 =>
  split at h
  next h6 => exact Except.noConfusion h
  next h6 =>
  split at h
  next h7 => exact Except.noConfusion h
  next h7 =>
  split at h
  next h8 => exact Except.noConfusion h
  next h8 =>
  split at h
  next h9 => exact Except.noConfusion h
  next h9 =>
  exact Or.inl (Except.error.inj h).symm

/-- Header fields are bounded by their bit widths. -/
theorem getTypeInfo_ok_lt (v : Bytes) (p bt ti : Nat)
    (h : getTypeInfo v p = .ok (bt, ti)) : bt < 4 ∧ ti < 64 := by
  unfold getTypeInfo at h
  split at h
  next e1 heq => exact Except.noConfusion h
  next b heq =>
    have h2 := Except.ok.inj h
    rw [Prod.mk.injEq] at h2
    obtain ⟨h3, h4⟩ := h2
    constructor
    · omega
    · omega

/-- Inversion of `_get_type`: a resolved kind pins down the basic type / type info of the header byte. -/
theorem getType_ok_elim (v : Bytes) (p : Nat) (t : PyType) (h : getType v p = .ok t) :
    ∃ bt ti, bt < 4 ∧ checkIndex p v.length = .ok () ∧ getTypeInfo v p = .ok (bt, ti) ∧
      ((bt = 1 ∧ t = .str)
       ∨ (bt = 2 ∧ t = .dict)
       ∨ (bt = 3 ∧ t = .arr)
       ∨ (bt ≠ 1 ∧ bt ≠ 2 ∧ bt ≠ 3 ∧
          ((ti = 0 ∧ t = .noneT)
           ∨ ((ti = 1 ∨ ti = 2) ∧ t = .bool)
           ∨ ((ti = 3 ∨ ti = 4 ∨ ti = 5 ∨ ti = 6) ∧ t = .int)
           ∨ (ti = 7 ∧ t = .float)
           ∨ ((ti = 8 ∨ ti = 9 ∨ ti = 10) ∧ t = .dec)
           ∨ (ti = 16 ∧ t = .str)))) := by
  unfold getType at h
  split at h
  next e1 heq => exact Except.noConfusion h
  next w heq =>
  cases w
  split at h
  next e1 heq2 => exact Except.noConfusion h
  next bt ti heq2 =>
  have hlt := (getTypeInfo_ok_lt v p bt ti heq2).1
  refine ⟨bt, ti, hlt, heq, heq2, ?_⟩
  split at h
  next h1 => exact Or.inl ⟨h1, (Except.ok.inj h).symm⟩
  next h1 =>
  split at h
  next h2 => exact Or.inr (Or.inl ⟨h2, (Except.ok.inj h).symm⟩)
  next h2 =>
  split at h
  next h3 => exact Or.inr (Or.inr (Or.inl ⟨h3, (Except.ok.inj h).symm⟩))
  next h3 =>
  refine Or.inr (Or.inr (Or.inr ⟨h1, h2, h3, ?_⟩))
  split at h
  next h4 => exact Or.inl ⟨h4, (Except.ok.inj h).symm⟩
  next h4 =>
  split at h
  next h5 => exact Or.inr (Or.inl ⟨h5, (Except.ok.inj h).symm⟩)
  next h5 =>
  split at h
  next h6 => exact Or.inr (Or.inr (Or.inl ⟨h6, (Except.ok.inj h).symm⟩))
  next h6 =>
  split at h
  next h7 => exact Or.inr (Or.inr (Or.inr (Or.inl ⟨h7, (Except.ok.inj h).symm⟩)))
  next h7 =>
  split at h
  next h8 =>
    exact Or.inr (Or.inr (Or.inr (Or.inr (Or.inl ⟨h8, (Except.ok.inj h).symm⟩))))
  next h8 =>
  split at h
  next h9 =>
    exact Or.inr (Or.inr (Or.inr (Or.inr (Or.inr ⟨h9, (Except.ok.inj h).symm⟩))))
  next h9 =>
  exact Except.noConfusion h

/-- The string payload extraction can only fail with `Malformed Variant` or `UnicodeDecodeError`. -/
theorem stringSlice_error (v : Bytes) (st ln : Nat) (e : PyErr)
    (h : stringSlice v st ln = .error e) : e = .malformed ∨ e = .unicodeError := by
  unfold stringSlice at h
  split at h
  next e1 heq =>
    rw [← Except.error.inj h]
    exact Or.inl (checkIndex_error _ _ _ heq)
  next w heq =>
  split at h
  next heq2 => exact Or.inr (Except.error.inj h).symm
  next cps heq2 => exact Except.noConfusion h

/-- On a position whose resolved kind is Bool, `_get_boolean` always succeeds: the kind check cannot fire. -/
theorem getBoolean_guarded (v : Bytes) (p : Nat)
    (ht : getType v p = .ok .bool) : ∃ b, getBoolean v p = .ok b := by
  obtain ⟨bt, ti, h4, hci, hgti, hcase⟩ := getType_ok_elim v p .bool ht
  rcases hcase with ⟨_, hteq⟩ | ⟨_, hteq⟩ | ⟨_, hteq⟩ | ⟨hb1, hb2, hb3, hrest⟩
  · exact PyType.noConfusion hteq
  · exact PyType.noConfusion hteq
  · exact PyType.noConfusion hteq
  rcases hrest with ⟨_, hteq⟩ | ⟨hti, _⟩ | ⟨_, hteq⟩ | ⟨_, hteq⟩ | ⟨_, hteq⟩ | ⟨_, hteq⟩
  · exact PyType.noConfusion hteq
  · unfold getBoolean
    simp only [hci, hgti]
    rw [if_neg (by simp only [PRIMITIVE, TRUE, FALSE]; omega)]
    exact ⟨_, rfl⟩
  · exact PyType.noConfusion hteq
  · exact PyType.noConfusion hteq
  · exact PyType.noConfusion hteq
  · exact PyType.noConfusion hteq

/-- On a position whose resolved kind is Int, `_get_long` fails only with `Malformed Variant`, never `UnexpectedType`. -/
theorem getLong_guarded (v : Bytes) (p : Nat) (e : PyErr)
    (ht : getType v p = .ok .int) (h : getLong v p = .error e) : e = .malformed := by
  obtain ⟨bt, ti, h4, hci, hgti, hcase⟩ := getType_ok_elim v p .int ht
  rcases hcase with ⟨_, hteq⟩ | ⟨_, hteq⟩ | ⟨_, hteq⟩ | ⟨hb1, hb2, hb3, hrest⟩
  · exact PyType.noConfusion hteq
  · exact PyType.noConfusion hteq
  · exact PyType.noConfusion hteq
  rcases hrest with ⟨_, hteq⟩ | ⟨_, hteq⟩ | ⟨hti, _⟩ | ⟨_, hteq⟩ | ⟨_, hteq⟩ | ⟨_, hteq⟩
  · exact PyType.noConfusion hteq
  · exact PyType.noConfusion hteq
  · unfold getLong at h
    simp only [hci, hgti] at h
    rw [if_neg (by simp only [PRIMITIVE]; omega)] at h
    split at h
    next => exact readLong_error _ _ _ _ _ h
    next h1 =>
    split at h
    next => exact readLong_error _ _ _ _ _ h
    next h2 =>
    split at h
    next => exact readLong_error _ _ _ _ _ h
    next h3 =>
    split at h
    next => exact readLong_error _ _ _ _ _ h
    next h4 =>
    simp only [INT1, INT2, INT4, INT8] at h1 h2 h3 h4
    omega
  · exact PyType.noConfusion hteq
  · exact PyType.noConfusion hteq
  · exact PyType.noConfusion hteq

/-- On a position whose resolved kind is String, `_get_string` fails only with `Malformed Variant` or `UnicodeDecodeError`. -/
theorem getString_guarded (v : Bytes) (p : Nat) (e : PyErr)
    (ht : getType v p = .ok .str) (h : getString v p = .error e) :
    e = .malformed ∨ e = .unicodeError := by
  obtain ⟨bt, ti, h4, hci, hgti, hcase⟩ := getType_ok_elim v p .str ht
  rcases hcase with ⟨hb1, _⟩ | ⟨_, hteq⟩ | ⟨_, hteq⟩ | ⟨hb1, hb2, hb3, hrest⟩
  · unfold getString at h
    simp only [hci, hgti] at h
    rw [if_pos (by simp only [SHORT_STR]; omega)] at h
    exact stringSlice_error _ _ _ _ h
  · exact PyType.noConfusion hteq
  · exact PyType.noConfusion hteq
  rcases hrest with ⟨_, hteq⟩ | ⟨_, hteq⟩ | ⟨_, hteq⟩ | ⟨_, hteq⟩ | ⟨_, hteq⟩ | ⟨hti, _⟩
  · exact PyType.noConfusion hteq
  · exact PyType.noConfusion hteq
  · exact PyType.noConfusion hteq
  · exact PyType.noConfusion hteq
  · exact PyType.noConfusion hteq
  · unfold getString at h
    simp only [hci, hgti] at h
    rw [if_neg (by simp only [SHORT_STR]; omega),
      if_pos (by simp only [PRIMITIVE, LONG_STR]; omega :
        bt = PRIMITIVE ∧ ti = LONG_STR)] at h
    split at h
    next e1 heq =>
      rw [← Except.error.inj h]
      exact Or.inl (readU_error _ _ _ _ heq)
    next len heq => exact stringSlice_error _ _ _ _ h

/-- On a position whose resolved kind is Float, `_get_double` fails only with `struct.error`. -/
theorem getDouble_guarded (v : Bytes) (p : Nat) (e : PyErr)
    (ht : getType v p = .ok .float) (h : getDouble v p = .error e) : e = .structError := by
  obtain ⟨bt, ti, h4, hci, hgti, hcase⟩ := getType_ok_elim v p .float ht
  rcases hcase with ⟨_, hteq⟩ | ⟨_, hteq⟩ | ⟨_, hteq⟩ | ⟨hb1, hb2, hb3, hrest⟩
  · exact PyType.noConfusion hteq
  · exact PyType.noConfusion hteq
  · exact PyType.noConfusion hteq
  rcases hrest with ⟨_, hteq⟩ | ⟨_, hteq⟩ | ⟨_, hteq⟩ | ⟨hti, _⟩ | ⟨_, hteq⟩ | ⟨_, hteq⟩
  · exact PyType.noConfusion hteq
  · exact PyType.noConfusion hteq
  · exact PyType.noConfusion hteq
  · unfold getDouble at h
    simp only [hci, hgti] at h
    rw [if_neg (by simp only [PRIMITIVE, DOUBLE]; omega)] at h
    split at h
    next => exact (Except.error.inj h).symm
    next => exact Except.noConfusion h
  · exact PyType.noConfusion hteq
  · exact PyType.noConfusion hteq

/-- On a position whose resolved kind is Decimal, the decimal reads fail only with `Malformed Variant` or `IndexError`. -/
theorem getDecimalSU_guarded (v : Bytes) (p : Nat) (e : PyErr)
    (ht : getType v p = .ok .dec) (h : getDecimalSU v p = .error e) :
    e = .malformed ∨ e = .indexError := by
  obtain ⟨bt, ti, h4, hci, hgti, hcase⟩ := getType_ok_elim v p .dec ht
  rcases hcase with ⟨_, hteq⟩ | ⟨_, hteq⟩ | ⟨_, hteq⟩ | ⟨hb1, hb2, hb3, hrest⟩
  · exact PyType.noConfusion hteq
  · exact PyType.noConfusion hteq
  · exact PyType.noConfusion hteq
  rcases hrest with ⟨_, hteq⟩ | ⟨_, hteq⟩ | ⟨_, hteq⟩ | ⟨_, hteq⟩ | ⟨hti, _⟩ | ⟨_, hteq⟩
  · exact PyType.noConfusion hteq
  · exact PyType.noConfusion hteq
  · exact PyType.noConfusion hteq
  · exact PyType.noConfusion hteq
  · unfold getDecimalSU at h
    simp only [hci, hgti] at h
    rw [if_neg (by simp only [PRIMITIVE]; omega)] at h
    split at h
    next e1 heq =>
      rw [← Except.error.inj h]
      exact Or.inr (byteAt_error _ _ _ heq)
    next scale heq =>
    split at h
    next =>
      split at h
      next e1 heq2 =>
        rw [← Except.error.inj h]
        exact Or.inl (readLong_error _ _ _ _ _ heq2)
      next => exact Except.noConfusion h
    next h1 =>
    split at h
    next =>
      split at h
      next e1 heq2 =>
        rw [← Except.error.inj h]
        exact Or.inl (readLong_error _ _ _ _ _ heq2)
      next => exact Except.noConfusion h
    next h2 =>
    split at h
    next =>
      split at h
      next e1 heq2 =>
        rw [← Except.error.inj h]
        exact Or.inl (checkIndex_error _ _ _ heq2)
      next => exact Except.noConfusion h
    next h3 =>
    simp only [DECIMAL4, DECIMAL8, DECIMAL16] at h1 h2 h3
    omega
  · exact PyType.noConfusion hteq

/-- Dispatched on the resolved kind, `_get_scalar` never raises `UnexpectedType` (and, being non-recursive, never runs out of fuel). -/
theorem getScalar_guarded (t : PyType) (v m : Bytes) (p : Nat) (e : PyErr)
    (ht : getType v p = .ok t) (h : getScalar t v m p = .error e) :
    e ≠ .unexpectedType ∧ e ≠ .fuelExhausted := by
  cases t with
  | noneT => exact Except.noConfusion h
  | bool =>
    obtain ⟨b, hb⟩ := getBoolean_guarded v p ht
    simp only [getScalar] at h
    rw [hb] at h
    exact Except.noConfusion h
  | int =>
    simp only [getScalar] at h
    split at h
    next e1 heq =>
      rw [← Except.error.inj h]
      rw [getLong_guarded v p e1 ht heq]
      exact ⟨by decide, by decide⟩
    next => exact Except.noConfusion h
  | str =>
    simp only [getScalar] at h
    split at h
    next e1 heq =>
      rw [← Except.error.inj h]
      rcases getString_guarded v p e1 ht heq with rfl | rfl
      · exact ⟨by decide, by decide⟩
      · exact ⟨by decide, by decide⟩
    next => exact Except.noConfusion h
  | float =>
    simp only [getScalar] at h
    split at h
    next e1 heq =>
      rw [← Except.error.inj h]
      rw [getDouble_guarded v p e1 ht heq]
      exact ⟨by decide, by decide⟩
    next => exact Except.noConfusion h
  | dec =>
    simp only [getScalar] at h
    split at h
    next e1 heq =>
      rw [← Except.error.inj h]
      unfold getDecimal at heq
      split at heq
      next e2 heq2 =>
        rcases getDecimalSU_guarded v p e2 ht heq2 with rfl | rfl
        · rw [← Except.error.inj heq]
          exact ⟨by decide, by decide⟩
        · rw [← Except.error.inj heq]
          exact ⟨by decide, by decide⟩
      next => exact Except.noConfusion heq
    next => exact Except.noConfusion h
  | dict =>
    rw [← Except.error.inj h]
    exact ⟨by decide, by decide⟩
  | arr =>
    rw [← Except.error.inj h]
    exact ⟨by decide, by decide⟩

/-- A passing bounds check means the position is in range. -/
theorem checkIndex_ok (p l : Nat) (w : Unit) (h : checkIndex p l = .ok w) : p < l := by
  unfold checkIndex at h
  split at h
  next => exact Except.noConfusion h
  next hge => omega

/-- The object decoder can only fail with `Malformed Variant`, `IndexError` or `UnicodeDecodeError`. -/
theorem handleObject_error (v m : Bytes) (pos : Nat) (e : PyErr)
    (h : handleObject v m pos = .error e) :
    e = .malformed ∨ e = .indexError ∨ e = .unicodeError := by
  unfold handleObject at h
  split at h
  next e1 heq =>
    rw [← Except.error.inj h]
    exact Or.inl (checkIndex_error _ _ _ heq)
  next w heq =>
  split at h
  next e1 heq2 =>
    rw [← Except.error.inj h]
    exact Or.inr (Or.inl (getTypeInfo_error _ _ _ heq2))
  next bt ti heq2 =>
  split at h
  next => exact Or.inl (Except.error.inj h).symm
  next hbt =>
  split at h
  next e1 heq3 =>
    rw [← Except.error.inj h]
    exact Or.inl (readU_error _ _ _ _ heq3)
  next n heq3 =>
  obtain ⟨i, hi, hf⟩ := exMap_error_mem _ _ _ h
  split at hf
  next e1 heq4 =>
    rw [← Except.error.inj hf]
    exact Or.inl (readU_error _ _ _ _ heq4)
  next id heq4 =>
  split at hf
  next e1 heq5 =>
    rw [← Except.error.inj hf]
    exact Or.inl (readU_error _ _ _ _ heq5)
  next off heq5 =>
  split at hf
  next e1 heq6 =>
    rw [← Except.error.inj hf]
    exact getMetadataKey_error _ _ _ heq6
  next => exact Except.noConfusion hf

/-- The array decoder can only fail with `Malformed Variant` or `IndexError`. -/
theorem handleArray_error (v : Bytes) (pos : Nat) (e : PyErr)
    (h : handleArray v pos = .error e) : e = .malformed ∨ e = .indexError := by
  unfold handleArray at h
  split at h
  next e1 heq =>
    rw [← Except.error.inj h]
    exact Or.inl (checkIndex_error _ _ _ heq)
  next w heq =>
  split at h
  next e1 heq2 =>
    rw [← Except.error.inj h]
    exact Or.inr (getTypeInfo_error _ _ _ heq2)
  next bt ti heq2 =>
  split at h
  next => exact Or.inl (Except.error.inj h).symm
  next hbt =>
  split at h
  next e1 heq3 =>
    rw [← Except.error.inj h]
    exact Or.inl (readU_error _ _ _ _ heq3)
  next n heq3 =>
  obtain ⟨i, hi, hf⟩ := exMap_error_mem _ _ _ h
  split at hf
  next e1 heq4 =>
    rw [← Except.error.inj hf]
    exact Or.inl (readU_error _ _ _ _ heq4)
  next => exact Except.noConfusion hf

/-- Every object child position is `data_start + offset`, strictly greater than the object position. -/
theorem handleObject_children_gt (v m : Bytes) (pos : Nat) (ps : List (List Nat × Nat))
    (h : handleObject v m pos = .ok ps) : ∀ q ∈ ps, pos < q.2 := by
  unfold handleObject at h
  split at h
  next e1 heq => exact Except.noConfusion h
  next w heq =>
  split at h
  next e1 heq2 => exact Except.noConfusion h
  next bt ti heq2 =>
  split at h
  next => exact Except.noConfusion h
  next hbt =>
  split at h
  next e1 heq3 => exact Except.noConfusion h
  next n heq3 =>
  intro q hq
  obtain ⟨i, hi, hf⟩ := exMap_ok_mem _ _ _ h q hq
  split at hf
  next e1 heq4 => exact Except.noConfusion hf
  next id heq4 =>
  split at hf
  next e1 heq5 => exact Except.noConfusion hf
  next off heq5 =>
  split at hf
  next e1 heq6 => exact Except.noConfusion hf
  next key heq6 =>
  have hpair := Except.ok.inj hf
  rw [← hpair]
  have h1 : 1 ≤ objSizeBytes ti := by
    unfold objSizeBytes
    split <;> simp [U32_SIZE]
  have h2 : pos < objDataStart pos ti n + off := by
    unfold objDataStart objOffsetStart objIdStart objOffsetSize
    omega
  exact h2

/-- Every array element position is `data_start + offset`, strictly greater than the array position. -/
theorem handleArray_children_gt (v : Bytes) (pos : Nat) (l : List Nat)
    (h : handleArray v pos = .ok l) : ∀ p ∈ l, pos < p := by
  unfold handleArray at h
  split at h
  next e1 heq => exact Except.noConfusion h
  next w heq =>
  split at h
  next e1 heq2 => exact Except.noConfusion h
  next bt ti heq2 =>
  split at h
  next => exact Except.noConfusion h
  next hbt =>
  split at h
  next e1 heq3 => exact Except.noConfusion h
  next n heq3 =>
  intro p hp
  obtain ⟨i, hi, hf⟩ := exMap_ok_mem _ _ _ h p hp
  split at hf
  next e1 heq4 => exact Except.noConfusion hf
  next off heq4 =>
  have hpair := Except.ok.inj hf
  rw [← hpair]
  have h1 : 1 ≤ arrSizeBytes ti := by
    unfold arrSizeBytes
    split <;> simp [U32_SIZE]
  have h2 : pos < arrDataStart pos ti n + off := by
    unfold arrDataStart arrOffsetStart arrOffsetSize
    omega
  exact h2

/-- C7: for every pair of buffers, any fuel and any position, the materializers `_to_json` and `_to_python` never raise `UnexpectedType`: every scalar accessor they invoke is dispatched on the kind already resolved by `_get_type`, so the accessor kind checks always pass. -/
theorem c7_no_unexpected_type (v m : Bytes) : ∀ fuel pos : Nat,
    toJsonF v m fuel pos ≠ .error .unexpectedType
    ∧ toPythonF v m fuel pos ≠ .error .unexpectedType := by
  intro fuel
  induction fuel with
  | zero =>
    intro pos
    exact ⟨fun h => PyErr.noConfusion (Except.error.inj h),
           fun h => PyErr.noConfusion (Except.error.inj h)⟩
  | succ f ih =>
    intro pos
    constructor
    · intro h
      simp only [toJsonF] at h
      split at h
      next e heq =>
        rcases getType_error _ _ _ heq with rfl | rfl <;>
          exact PyErr.noConfusion (Except.error.inj h)
      next heq =>
        split at h
        next e heq2 =>
          rcases handleObject_error _ _ _ _ heq2 with rfl | rfl | rfl <;>
            exact PyErr.noConfusion (Except.error.inj h)
        next ps heq2 =>
        split at h
        next e heq3 =>
          obtain ⟨q, hq, hfq⟩ := exMap_error_mem _ _ _ heq3
          split at hfq
          next e2 heq4 =>
            exact (ih q.2).1 (by
              rw [heq4, Except.error.inj hfq, Except.error.inj h])
          next => exact Except.noConfusion hfq
        next => exact Except.noConfusion h
      next heq =>
        split at h
        next e heq2 =>
          rcases handleArray_error _ _ _ heq2 with rfl | rfl <;>
            exact PyErr.noConfusion (Except.error.inj h)
        next l heq2 =>
        split at h
        next e heq3 =>
          obtain ⟨p, hp, hfp⟩ := exMap_error_mem _ _ _ heq3
          exact (ih p).1 (by rw [hfp, Except.error.inj h])
        next => exact Except.noConfusion h
      next t hnd hna heq =>
        split at h
        next e heq2 =>
          exact (getScalar_guarded t v m pos e heq heq2).1 (Except.error.inj h)
        next => exact Except.noConfusion h
    · intro h
      simp only [toPythonF] at h
      split at h
      next e heq =>
        rcases getType_error _ _ _ heq with rfl | rfl <;>
          exact PyErr.noConfusion (Except.error.inj h)
      next heq =>
        split at h
        next e heq2 =>
          rcases handleObject_error _ _ _ _ heq2 with rfl | rfl | rfl <;>
            exact PyErr.noConfusion (Except.error.inj h)
        next ps heq2 =>
        split at h
        next e heq3 =>
          obtain ⟨q, hq, hfq⟩ := exMap_error_mem _ _ _ heq3
          split at hfq
          next e2 heq4 =>
            exact (ih q.2).2 (by
              rw [heq4, Except.error.inj hfq, Except.error.inj h])
          next => exact Except.noConfusion hfq
        next => exact Except.noConfusion h
      next heq =>
        split at h
        next e heq2 =>
          rcases handleArray_error _ _ _ heq2 with rfl | rfl <;>
            exact PyErr.noConfusion (Except.error.inj h)
        next l heq2 =>
        split at h
        next e heq3 =>
          obtain ⟨p, hp, hfp⟩ := exMap_error_mem _ _ _ heq3
          exact (ih p).2 (by rw [hfp, Except.error.inj h])
        next => exact Except.noConfusion h
      next t hnd hna heq =>
        exact (getScalar_guarded t v m pos _ heq h).1 rfl

/-- C10: object/array child positions are strictly greater than the container position, hence recursion depth is bounded by the value-buffer length: with fuel at least `max 1 (len(value) + 1 - pos)` neither materializer ever exhausts its fuel, i.e. the native recursion of the source terminates on every finite input. -/
theorem c10_positions_increase_terminate (v m : Bytes) :
    (∀ pos ps, handleObject v m pos = .ok ps → ∀ q ∈ ps, pos < q.2)
    ∧ (∀ pos l, handleArray v pos = .ok l → ∀ p ∈ l, pos < p)
    ∧ ∀ fuel pos : Nat, 1 ≤ fuel → v.length + 1 ≤ fuel + pos →
        toJsonF v m fuel pos ≠ .error .fuelExhausted
        ∧ toPythonF v m fuel pos ≠ .error .fuelExhausted := by
  refine ⟨fun pos ps h => handleObject_children_gt v m pos ps h,
          fun pos l h => handleArray_children_gt v pos l h, ?_⟩
  intro fuel
  induction fuel with
  | zero =>
    intro pos h1 _
    omega
  | succ f ih =>
    intro pos _ hle
    constructor
    · intro h
      simp only [toJsonF] at h
      split at h
      next e heq =>
        rcases getType_error _ _ _ heq with rfl | rfl <;>
          exact PyErr.noConfusion (Except.error.inj h)
      next heq =>
        obtain ⟨bt, ti, _, hci, _, _⟩ := getType_ok_elim v pos .dict heq
        have hpos : pos < v.length := checkIndex_ok _ _ _ hci
        split at h
        next e heq2 =>
          rcases handleObject_error _ _ _ _ heq2 with rfl | rfl | rfl <;>
            exact PyErr.noConfusion (Except.error.inj h)
        next ps heq2 =>
        split at h
        next e heq3 =>
          obtain ⟨q, hq, hfq⟩ := exMap_error_mem _ _ _ heq3
          split at hfq
          next e2 heq4 =>
            have hgt : pos < q.2 := handleObject_children_gt v m pos ps heq2 q hq
            exact (ih q.2 (by omega) (by omega)).1 (by
              rw [heq4, Except.error.inj hfq, Except.error.inj h])
          next => exact Except.noConfusion hfq
        next => exact Except.noConfusion h
      next heq =>
        obtain ⟨bt, ti, _, hci, _, _⟩ := getType_ok_elim v pos .arr heq
        have hpos : pos < v.length := checkIndex_ok _ _ _ hci
        split at h
        next e heq2 =>
          rcases handleArray_error _ _ _ heq2 with rfl | rfl <;>
            exact PyErr.noConfusion (Except.error.inj h)
        next l heq2 =>
        split at h
        next e heq3 =>
          obtain ⟨p, hp, hfp⟩ := exMap_error_mem _ _ _ heq3
          have hgt : pos < p := handleArray_children_gt v pos l heq2 p hp
          exact (ih p (by omega) (by omega)).1 (by
            rw [hfp, Except.error.inj h])
        next => exact Except.noConfusion h
      next t hnd hna heq =>
        split at h
        next e heq2 =>
          exact (getScalar_guarded t v m pos e heq heq2).2 (Except.error.inj h)
        next => exact Except.noConfusion h
    · intro h
      simp only [toPythonF] at h
      split at h
      next e heq =>
        rcases getType_error _ _ _ heq with rfl | rfl <;>
          exact PyErr.noConfusion (Except.error.inj h)
      next heq =>
        obtain ⟨bt, ti, _, hci, _, _⟩ := getType_ok_elim v pos .dict heq
        have hpos : pos < v.length := checkIndex_ok _ _ _ hci
        split at h
        next e heq2 =>
          rcases handleObject_error _ _ _ _ heq2 with rfl | rfl | rfl <;>
            exact PyErr.noConfusion (Except.error.inj h)
        next ps heq2 =>
        split at h
        next e heq3 =>
          obtain ⟨q, hq, hfq⟩ := exMap_error_mem _ _ _ heq3
          split at hfq
          next e2 heq4 =>
            have hgt : pos < q.2 := handleObject_children_gt v m pos ps heq2 q hq
            exact (ih q.2 (by omega) (by omega)).2 (by
              rw [heq4, Except.error.inj hfq, Except.error.inj h])
          next => exact Except.noConfusion hfq
        next => exact Except.noConfusion h
      next heq =>
        obtain ⟨bt, ti, _, hci, _, _⟩ := getType_ok_elim v pos .arr heq
        have hpos : pos < v.length := checkIndex_ok _ _ _ hci
        split at h
        next e heq2 =>
          rcases handleArray_error _ _ _ heq2 with rfl | rfl <;>
            exact PyErr.noConfusion (Except.error.inj h)
        next l heq2 =>
        split at h
        next e heq3 =>
          obtain ⟨p, hp, hfp⟩ := exMap_error_mem _ _ _ heq3
          have hgt : pos < p := handleArray_children_gt v pos l heq2 p hp
          exact (ih p (by omega) (by omega)).2 (by
            rw [hfp, Except.error.inj h])
        next => exact Except.noConfusion h
      next t hnd hna heq =>
        exact (getScalar_guarded t v m pos _ heq h).2 rfl

/-- Witness for `c7_no_unexpected_type` at a concrete buffer, fuel and
position. -/
theorem c7_no_unexpected_type_witness :
    toJsonF [4] minMeta 1 0 ≠ .error .unexpectedType
    ∧ toPythonF [4] minMeta 1 0 ≠ .error .unexpectedType :=
  c7_no_unexpected_type [4] minMeta 1 0

/-- Witness for `c10_positions_increase_terminate` at the one-element array
`[null]`: the element position 4 exceeds the array position 0, and decoding
with fuel 6 does not exhaust it. -/
theorem c10_positions_increase_terminate_witness :
    (0 : Nat) < 4
    ∧ toJsonF [3, 1, 0, 0, 0] minMeta 6 0 ≠ .error .fuelExhausted
    ∧ toPythonF [3, 1, 0, 0, 0] minMeta 6 0 ≠ .error .fuelExhausted := by
  have h := c10_positions_increase_terminate [3, 1, 0, 0, 0] minMeta
  exact ⟨h.2.1 0 [4] rfl 4 (by decide),
         (h.2.2 6 0 (by decide) (by decide)).1,
         (h.2.2 6 0 (by decide) (by decide)).2⟩
